import Mathlib

/-!
DepthwiseConvolutionLayer: a shallow embedding of `src/caffe/layers/depthwise_conv_layer.cpp`
(`LayerSetUp`, `Reshape`, `compute_output_shape`, `Forward_cpu`, `Backward_cpu`)
and theorems about it.

Conventions of the embedding.

* C++ `int` values are `Int`; `/` on them is `Int.tdiv` (C++ integer division
  truncates toward zero).  Signed overflow is undefined behaviour in C++ and has no
  counterpart here: the arithmetic is the one of values that stay inside the `int` range.
  In `compute_output_shape` every operand is declared `int` in the source; in `Reshape` the
  operands are members whose declaration is absent (see there).
* An access the C++ leaves undefined (`v[i]` past the end of a vector or of a protobuf
  repeated field, integer division by zero) makes the embedded function return a
  `Fault` instead of a value.
* `Dtype` is an arbitrary commutative ring `R` (exact arithmetic); every definition
  runs on `R := ℤ`.
* Members declared in the header or the base class, which are not part of the sources
  at hand, are fields of `Layer` under the name the source uses for them.
* Tensors are values: two positions of a vector of tensors, or a parameter and a bottom
  tensor, never share storage.
* The per-sample routines `forward_cpu_gemm`, `forward_cpu_bias`, `backward_cpu_bias`,
  `weight_cpu_gemm` and `backward_cpu_gemm` are not part of the sources at hand either; they
  are modelled from the specification, each as the buffer it leaves.
-/

namespace Caffe

/-- The two ways an embedded function can hit undefined behaviour of the C++. -/
inductive Fault where
  | indexOutOfRange
  | divisionByZero
  deriving DecidableEq, Repr

/-- Element access `v[i]` on a `vector` or `field(i)` on a protobuf repeated field. -/
def elemAt {α : Type} (xs : List α) (i : Nat) : Except Fault α :=
  match xs[i]? with
  | some x => .ok x
  | none => .error .indexOutOfRange

/-- Raw pointer read `p[i]` from a flat buffer. -/
def rd {R : Type} [Zero R] (buf : List R) (i : Nat) : R := buf.getD i 0

/-- The buffer after `p[off + k] = f k` for every `k < len` (writes through the pointer
`p + off`); cells outside the slice keep their value. -/
def writeSlice {R : Type} [Zero R] (buf : List R) (off len : Nat) (f : Nat → R) : List R :=
  (List.range buf.length).map fun j =>
    if off ≤ j ∧ j < off + len then f (j - off) else rd buf j

/-! ## Tensors -/

/-- Modelled from the spec: the `Blob` class (declared in `caffe/blob.hpp`, absent from the
sources at hand).  Spec §3: a tensor is an array with a shape, contiguous backing storage
and a same-shaped gradient ("diff") buffer. -/
structure Blob (R : Type) where
  shape_ : List Int
  data_ : List R
  diff_ : List R
  deriving DecidableEq, Repr

namespace Blob

variable {R : Type}

/-- Number of elements `count()`: the product of the shape. -/
def count (b : Blob R) : Int := b.shape_.prod

/-- Modelled from the spec: the legacy accessors `num()`, `channels()`, `height()`,
`width()` of `Blob` read axes 0..3 of the shape (spec §3: batch N, channels C, height H,
width W); an axis the shape does not have counts as 1. -/
def LegacyShape (b : Blob R) (index : Nat) : Int := b.shape_.getD index 1

/-- Accessor `num()`. -/
def num (b : Blob R) : Int := b.LegacyShape 0

/-- Accessor `channels()`. -/
def channels (b : Blob R) : Int := b.LegacyShape 1

/-- Accessor `height()`. -/
def height (b : Blob R) : Int := b.LegacyShape 2

/-- Accessor `width()`. -/
def width (b : Blob R) : Int := b.LegacyShape 3

/-- Modelled from the spec: the constructor `Blob(shape)`, a tensor of the given shape whose
storage and gradient buffer are fresh (zero). -/
def ofShape [Zero R] (shape : List Int) : Blob R :=
  { shape_ := shape
    data_ := List.replicate shape.prod.toNat 0
    diff_ := List.replicate shape.prod.toNat 0 }

/-- Modelled from the spec: `Blob::Reshape(shape)` sets the shape; the storage is replaced by a
fresh (zero) one when the new element count exceeds it and is kept otherwise
(spec §3: buffers are "sized from current shape"). -/
def Reshape [Zero R] (b : Blob R) (shape : List Int) : Blob R :=
  if b.data_.length < shape.prod.toNat then
    { shape_ := shape
      data_ := List.replicate shape.prod.toNat 0
      diff_ := List.replicate shape.prod.toNat 0 }
  else
    { b with shape_ := shape }

/-- Entry `data[n, c, h, w]` of a 4-D tensor stored contiguously in row-major order. -/
def data_at [Zero R] (b : Blob R) (n c h w : Nat) : R :=
  rd b.data_ (((n * (b.channels).toNat + c) * (b.height).toNat + h) * (b.width).toNat + w)

/-- Entry `diff[n, c, h, w]` of the gradient buffer of a 4-D tensor. -/
def diff_at [Zero R] (b : Blob R) (n c h w : Nat) : R :=
  rd b.diff_ (((n * (b.channels).toNat + c) * (b.height).toNat + h) * (b.width).toNat + w)

end Blob

/-! ## Configuration and fillers -/

/-- Modelled from the spec: the `FillerParameter` message (generated protobuf code, absent);
only its `type` tag is kept. -/
structure FillerParameter where
  type : String
  deriving DecidableEq, Repr

/-- Modelled from the spec: the `ConvolutionParameter` message (generated protobuf code,
absent).  Spec §4.1 and §6: per group an optional explicit per-axis value (`has_x()` is
`isSome`) and a list of values, a dilation list, a bias-enabled flag and the two filler
configurations. -/
structure ConvolutionParameter where
  kernel_h : Option Int
  kernel_w : Option Int
  stride_h : Option Int
  stride_w : Option Int
  pad_h : Option Int
  pad_w : Option Int
  kernel_size : List Int
  stride : List Int
  pad : List Int
  dilation : List Int
  bias_term : Bool
  weight_filler : FillerParameter
  bias_filler : FillerParameter
  deriving DecidableEq, Repr

/-- Modelled from the spec: the filler capability `Fill(tensor)` (spec §6, external).  Given
the state of the random generator and the shape of the tensor it returns the values to
store and the next generator state. -/
abbrev Filler (R : Type) := Nat → List Int → List R × Nat

/-- One recorded invocation of `Fill`: which filler, on which position of `blobs_`, and the
shape of the tensor handed over. -/
structure FillCall where
  filler : FillerParameter
  target : Nat
  shape : List Int
  deriving DecidableEq, Repr

/-- State of the filler collaborator: the random generator and the trace of the `Fill`
invocations made so far. -/
structure FillerWorld where
  rng : Nat
  calls : List FillCall
  deriving DecidableEq, Repr

/-- The call `GetFiller(param)->Fill(blobs_[target])`: the tensor's values are replaced by the
filler's, the generator advances, and the call is recorded. -/
def Fill {R : Type} (GetFiller : FillerParameter → Filler R) (param : FillerParameter)
    (target : Nat) (b : Blob R) (W : FillerWorld) : Blob R × FillerWorld :=
  ({ b with data_ := (GetFiller param W.rng b.shape_).1 },
   { rng := (GetFiller param W.rng b.shape_).2
     calls := W.calls ++ [{ filler := param, target := target, shape := b.shape_ }] })

/-! ## The layer -/

/-- State of a `DepthwiseConvolutionLayer<Dtype>`. -/
structure Layer (R : Type) where
  /-- The message `layer_param_.convolution_param()`. -/
  conv_param : ConvolutionParameter
  blobs_ : List (Blob R)
  param_propagate_down_ : List Bool
  kernel_h_ : Int
  kernel_w_ : Int
  stride_h_ : Int
  stride_w_ : Int
  pad_h_ : Int
  pad_w_ : Int
  dilation_h_ : Int
  dilation_w_ : Int
  weight_buffer_ : Blob R
  weight_multiplier_ : Blob R
  bias_buffer_ : Blob R
  bias_multiplier_ : Blob R
  /-- Base-class member read by `compute_output_shape`. -/
  kernel_shape_ : List Int
  /-- Base-class member read by `compute_output_shape`. -/
  stride_ : List Int
  /-- Base-class member read by `compute_output_shape`. -/
  pad_ : List Int
  /-- Base-class member read by `compute_output_shape`. -/
  dilation_ : List Int
  num_spatial_axes_ : Int
  /-- The values `input_shape(0)`, `input_shape(1)`, ...: channel axis first, then the
  spatial axes. -/
  input_shape : List Int
  output_shape_ : List Int
  num_ : Nat
  bottom_dim_ : Nat
  top_dim_ : Nat
  bias_term_ : Bool
  deriving DecidableEq, Repr

variable {R : Type}

/-- The call `vector<bool>::resize(n, true)`: truncate to `n` entries or pad with `true`. -/
def resizeTrue (v : List Bool) (n : Nat) : List Bool :=
  v.take n ++ List.replicate (n - v.length) true

/-- Lines 9-23, 24-38, 39-53 of `LayerSetUp`, one instance per group: the explicit pair when
both `has_x_h()` and `has_x_w()` hold, else `(list(0), list(0))` when the list has size 1,
else `(list(0), list(1))`. -/
def resolvePair (xh xw : Option Int) (list : List Int) : Except Fault (Int × Int) :=
  match xh, xw with
  | some h, some w => pure (h, w)
  | _, _ =>
    if list.length = 1 then do
      let h ← elemAt list 0
      let w ← elemAt list 0
      pure (h, w)
    else do
      let h ← elemAt list 0
      let w ← elemAt list 1
      pure (h, w)

/-- Lines 54-71 of `LayerSetUp`: the dilation pair. -/
def resolveDilation (list : List Int) : Except Fault (Int × Int) :=
  if 0 < list.length then
    if list.length = 1 then do
      let h ← elemAt list 0
      let w ← elemAt list 0
      pure (h, w)
    else do
      let h ← elemAt list 0
      let w ← elemAt list 1
      pure (h, w)
  else
    pure (1, 1)

/-- Lines 82-96 of `LayerSetUp`: parameter creation, entered only when `blobs_` is empty.
`blobs_.resize(n)` followed by the `reset` of each slot leaves the list of the created
tensors. -/
def initBlobs [Zero R] (GetFiller : FillerParameter → Filler R) (conv_param : ConvolutionParameter)
    (weight_shape bias_shape : List Int) (blobs_ : List (Blob R)) (W : FillerWorld) :
    List (Blob R) × FillerWorld :=
  if blobs_.length = 0 then
    let wf := Fill GetFiller conv_param.weight_filler 0 (Blob.ofShape weight_shape) W
    if conv_param.bias_term then
      let bf := Fill GetFiller conv_param.bias_filler 1 (Blob.ofShape bias_shape) wf.2
      ([wf.1, bf.1], bf.2)
    else
      ([wf.1], wf.2)
  else
    (blobs_, W)

/-- The method `DepthwiseConvolutionLayer::LayerSetUp(bottom, top)` (lines 6-98); it returns the
layer and the filler state after the call. -/
def LayerSetUp [Zero R] (GetFiller : FillerParameter → Filler R) (L : Layer R) (W : FillerWorld)
    (bottom : List (Blob R)) : Except Fault (Layer R × FillerWorld) := do
  let conv_param := L.conv_param
  let kernel ← resolvePair conv_param.kernel_h conv_param.kernel_w conv_param.kernel_size
  let stride ← resolvePair conv_param.stride_h conv_param.stride_w conv_param.stride
  let pad ← resolvePair conv_param.pad_h conv_param.pad_w conv_param.pad
  let dilation ← resolveDilation conv_param.dilation
  let b0 ← elemAt bottom 0
  let weight_shape : List Int := [b0.channels, 1, kernel.1, kernel.2]
  let bias_shape : List Int := if conv_param.bias_term then [b0.channels] else []
  let init := initBlobs GetFiller conv_param weight_shape bias_shape L.blobs_ W
  pure
    ({ L with
        kernel_h_ := kernel.1, kernel_w_ := kernel.2
        stride_h_ := stride.1, stride_w_ := stride.2
        pad_h_ := pad.1, pad_w_ := pad.2
        dilation_h_ := dilation.1, dilation_w_ := dilation.2
        blobs_ := init.1
        param_propagate_down_ := resizeTrue L.param_propagate_down_ init.1.length },
     init.2)

/-- The assignment `caffe_gpu_set(count, Dtype(1), blob.mutable_gpu_data())`. -/
def setOnes [Zero R] [One R] (b : Blob R) : Blob R :=
  { b with data_ := writeSlice b.data_ 0 b.count.toNat fun _ => 1 }

/-- The method `DepthwiseConvolutionLayer::Reshape(bottom, top)`; returns the layer and the `top`
vector after the call.

The members `kernel_h_`, ..., `dilation_w_` that lines 106-107 compute with are declared in the
header, which is not part of the sources at hand; they are taken as integers (spec §3) and the
two quotients are computed as for `int`.  The source expression has this value under either
signedness of the members as long as the numerator is not negative, that is, as long as
dilation*(kernel-1)+1 <= input + 2*pad; beyond that the value of `out_h`, `out_w` depends on
the absent declaration, and no theorem below relies on it there. -/
def Reshape [Zero R] [One R] (L : Layer R) (bottom top : List (Blob R)) :
    Except Fault (Layer R × List (Blob R)) := do
  let b0 ← elemAt bottom 0
  if L.stride_h_ = 0 then throw Fault.divisionByZero
  let out_h := (b0.height + 2 * L.pad_h_ - (L.dilation_h_ * (L.kernel_h_ - 1) + 1)).tdiv L.stride_h_ + 1
  if L.stride_w_ = 0 then throw Fault.divisionByZero
  let out_w := (b0.width + 2 * L.pad_w_ - (L.dilation_w_ * (L.kernel_w_ - 1) + 1)).tdiv L.stride_w_ + 1
  let top_shape : List Int := [b0.num, b0.channels, out_h, out_w]
  let t0 ← elemAt top 0
  let t0 := t0.Reshape top_shape
  let weight_buffer_ :=
    L.weight_buffer_.Reshape [b0.channels, L.kernel_h_, L.kernel_w_, b0.num, t0.height, t0.width]
  let weight_multiplier_ := setOnes (L.weight_multiplier_.Reshape [b0.num, t0.height, t0.width])
  let L1 := { L with weight_buffer_ := weight_buffer_, weight_multiplier_ := weight_multiplier_ }
  if L.conv_param.bias_term then
    let bias_buffer_ := L.bias_buffer_.Reshape [b0.channels, b0.num, t0.height, t0.width]
    let bias_multiplier_ := setOnes (L.bias_multiplier_.Reshape [b0.num, t0.height, t0.width])
    pure ({ L1 with bias_buffer_ := bias_buffer_, bias_multiplier_ := bias_multiplier_ },
          top.set 0 t0)
  else
    pure (L1, top.set 0 t0)

/-- One iteration of the loop of `compute_output_shape` (lines 149-154). -/
def compute_output_shape_step (L : Layer R) (output_shape_ : List Int) (i : Nat) :
    Except Fault (List Int) := do
  let input_dim ← elemAt L.input_shape (i + 1)
  let d ← elemAt L.dilation_ i
  let k ← elemAt L.kernel_shape_ i
  let kernel_extent := d * (k - 1) + 1
  let p ← elemAt L.pad_ i
  let s ← elemAt L.stride_ i
  if s = 0 then throw Fault.divisionByZero
  let output_dim := (input_dim + 2 * p - kernel_extent).tdiv s + 1
  pure (output_shape_ ++ [output_dim])

/-- The method `DepthwiseConvolutionLayer::compute_output_shape()` (lines 142-156). -/
def compute_output_shape (L : Layer R) : Except Fault (Layer R) := do
  let output_shape_ ←
    (List.range L.num_spatial_axes_.toNat).foldlM (compute_output_shape_step L) []
  pure { L with output_shape_ := output_shape_ }


/-! ## Per-sample routines -/

/-- The geometry the per-sample routines work with: channel count, input and output height
and width, kernel size, strides, pads and dilations. -/
structure Geom where
  C : Nat
  H : Nat
  W : Nat
  OH : Nat
  OW : Nat
  KH : Nat
  KW : Nat
  SH : Int
  SW : Int
  PH : Int
  PW : Int
  DH : Int
  DW : Int
  deriving DecidableEq, Repr

/-- The geometry as the layer holds it: `input_shape(0..2)` is (C, H, W), `output_shape_` is
(out_H, out_W), and the parameters are the pairs resolved by `LayerSetUp`. -/
def Layer.geom (L : Layer R) : Geom :=
  { C := (L.input_shape.getD 0 0).toNat
    H := (L.input_shape.getD 1 0).toNat
    W := (L.input_shape.getD 2 0).toNat
    OH := (L.output_shape_.getD 0 0).toNat
    OW := (L.output_shape_.getD 1 0).toNat
    KH := L.kernel_h_.toNat
    KW := L.kernel_w_.toNat
    SH := L.stride_h_
    SW := L.stride_w_
    PH := L.pad_h_
    PW := L.pad_w_
    DH := L.dilation_h_
    DW := L.dilation_w_ }

/-- Entry `[c, ih, iw]` of the sample that starts at `input + in_off`; a coordinate outside
`[0,H) x [0,W)` reads as zero (spec §4.4: implicit zero-padding). -/
def paddedAt [Zero R] (g : Geom) (input : List R) (in_off c : Nat) (ih iw : Int) : R :=
  if 0 ≤ ih ∧ ih < g.H ∧ 0 ≤ iw ∧ iw < g.W then
    rd input (in_off + (c * g.H + ih.toNat) * g.W + iw.toNat)
  else 0

/-- Modelled from the spec: `forward_cpu_gemm(input, weights, output)` is a base-class routine
absent from the sources at hand.  Spec §4.4 step 1: for every channel c and output position
(oh, ow), output[c,oh,ow] = Σ over kernel offsets (kh,kw) of weight[c,0,kh,kw] ·
input[c, oh·stride_h − pad_h + kh·dilation_h, ow·stride_w − pad_w + kw·dilation_w], a
coordinate outside the input contributing zero. -/
def forward_cpu_gemm [CommRing R] (L : Layer R) (input : List R) (in_off : Nat) (weights : List R)
    (output : List R) (out_off : Nat) : List R :=
  let g := L.geom
  writeSlice output out_off (g.C * g.OH * g.OW) fun k =>
    let c := k / (g.OH * g.OW)
    let oh := k / g.OW % g.OH
    let ow := k % g.OW
    ∑ kh in Finset.range g.KH, ∑ kw in Finset.range g.KW,
      rd weights ((c * g.KH + kh) * g.KW + kw) *
        paddedAt g input in_off c (oh * g.SH - g.PH + kh * g.DH) (ow * g.SW - g.PW + kw * g.DW)

/-- Modelled from the spec: `forward_cpu_bias(output, bias)` is a base-class routine absent from
the sources at hand.  Spec §4.4 step 2: output[c,oh,ow] += bias[c] for every (oh,ow). -/
def forward_cpu_bias [CommRing R] (L : Layer R) (output : List R) (out_off : Nat) (bias : List R) :
    List R :=
  let g := L.geom
  writeSlice output out_off (g.C * g.OH * g.OW) fun k =>
    rd output (out_off + k) + rd bias (k / (g.OH * g.OW))

/-- Modelled from the spec: `backward_cpu_bias(bias_diff, top_diff)` is a base-class routine
absent from the sources at hand.  Spec §4.5 step 1: for every channel c, accumulate Σ over all
output positions (oh,ow) of d output[c,oh,ow] into bias_gradient[c]. -/
def backward_cpu_bias [CommRing R] (L : Layer R) (bias_diff : List R) (top_diff : List R)
    (td_off : Nat) : List R :=
  let g := L.geom
  writeSlice bias_diff 0 g.C fun c =>
    rd bias_diff c +
      ∑ oh in Finset.range g.OH, ∑ ow in Finset.range g.OW,
        rd top_diff (td_off + (c * g.OH + oh) * g.OW + ow)

/-- Modelled from the spec: `weight_cpu_gemm(input, top_diff, weight_diff)` is a base-class
routine absent from the sources at hand.  Spec §4.5 step 2: for every channel c and kernel
offset (kh,kw), accumulate Σ over output positions (oh,ow) of input[c, corresponding
position] · d output[c,oh,ow] into weight_gradient[c,0,kh,kw]; a position whose input
coordinate falls outside bounds contributes nothing. -/
def weight_cpu_gemm [CommRing R] (L : Layer R) (input : List R) (in_off : Nat) (top_diff : List R)
    (td_off : Nat) (weight_diff : List R) : List R :=
  let g := L.geom
  writeSlice weight_diff 0 (g.C * g.KH * g.KW) fun k =>
    let c := k / (g.KH * g.KW)
    let kh := k / g.KW % g.KH
    let kw := k % g.KW
    rd weight_diff k +
      ∑ oh in Finset.range g.OH, ∑ ow in Finset.range g.OW,
        paddedAt g input in_off c (oh * g.SH - g.PH + kh * g.DH) (ow * g.SW - g.PW + kw * g.DW) *
          rd top_diff (td_off + (c * g.OH + oh) * g.OW + ow)

/-- Modelled from the spec: `backward_cpu_gemm(top_diff, weights, bottom_diff)` is a base-class
routine absent from the sources at hand.  Spec §4.5 step 3: for every channel c and input
position, overwrite input_gradient[c,ih,iw] with Σ over the kernel offsets and output
positions mapping to that position of weight[c,0,kh,kw] · d output[c,oh,ow]. -/
def backward_cpu_gemm [CommRing R] (L : Layer R) (top_diff : List R) (td_off : Nat)
    (weights : List R) (bottom_diff : List R) (bd_off : Nat) : List R :=
  let g := L.geom
  writeSlice bottom_diff bd_off (g.C * g.H * g.W) fun k =>
    let c := k / (g.H * g.W)
    let ih := k / g.W % g.H
    let iw := k % g.W
    ∑ kh in Finset.range g.KH, ∑ kw in Finset.range g.KW,
      ∑ oh in Finset.range g.OH, ∑ ow in Finset.range g.OW,
        if oh * g.SH - g.PH + kh * g.DH = ih ∧ ow * g.SW - g.PW + kw * g.DW = iw then
          rd weights ((c * g.KH + kh) * g.KW + kw) *
            rd top_diff (td_off + (c * g.OH + oh) * g.OW + ow)
        else 0

/-! ## Forward and backward passes -/

/-- Body of the loop over `n` in `Forward_cpu` (lines 166-171). -/
def Forward_cpu_sample [CommRing R] (L : Layer R) (bottom_data weight : List R)
    (top_data : List R) (n : Nat) : Except Fault (List R) := do
  let top_data :=
    forward_cpu_gemm L bottom_data (n * L.bottom_dim_) weight top_data (n * L.top_dim_)
  if L.bias_term_ then
    let b1 ← elemAt L.blobs_ 1
    pure (forward_cpu_bias L top_data (n * L.top_dim_) b1.data_)
  else
    pure top_data

/-- Body of the loop over `i` in `Forward_cpu` (lines 163-172). -/
def Forward_cpu_pair [CommRing R] (L : Layer R) (weight : List R) (bottom : List (Blob R))
    (top : List (Blob R)) (i : Nat) : Except Fault (List (Blob R)) := do
  let b ← elemAt bottom i
  let t ← elemAt top i
  let top_data ← (List.range L.num_).foldlM (Forward_cpu_sample L b.data_ weight) t.data_
  pure (top.set i { t with data_ := top_data })

/-- The method `DepthwiseConvolutionLayer::Forward_cpu(bottom, top)`; returns the `top` vector after
the call. -/
def Forward_cpu [CommRing R] (L : Layer R) (bottom top : List (Blob R)) :
    Except Fault (List (Blob R)) := do
  let w ← elemAt L.blobs_ 0
  (List.range bottom.length).foldlM (Forward_cpu_pair L w.data_ bottom) top

/-- Body of the loop over `n` at lines 193-204 of `Backward_cpu`; the state is the pair
(`weight_diff`, `bottom_diff`) of the buffers the two pointers address. -/
def Backward_cpu_sample [CommRing R] (L : Layer R) (weight bottom_data top_diff : List R)
    (propagate_down : List Bool) (i : Nat) (st : List R × List R) (n : Nat) :
    Except Fault (List R × List R) := do
  let p0 ← elemAt L.param_propagate_down_ 0
  let weight_diff :=
    if p0 then
      weight_cpu_gemm L bottom_data (n * L.bottom_dim_) top_diff (n * L.top_dim_) st.1
    else st.1
  let pd ← elemAt propagate_down i
  let bottom_diff :=
    if pd then
      backward_cpu_gemm L top_diff (n * L.top_dim_) weight st.2 (n * L.bottom_dim_)
    else st.2
  pure (weight_diff, bottom_diff)

/-- Lines 186-191 of `Backward_cpu`: the bias gradient of pair `i`, accumulated into
`blobs_[1]`. -/
def Backward_cpu_bias_part [CommRing R] (L : Layer R) (top_diff : List R)
    (blobs : List (Blob R)) : Except Fault (List (Blob R)) := do
  if L.bias_term_ then
    let p1 ← elemAt L.param_propagate_down_ 1
    if p1 then
      let b1 ← elemAt blobs 1
      let bias_diff :=
        (List.range L.num_).foldl
          (fun bias_diff n => backward_cpu_bias L bias_diff top_diff (n * L.top_dim_)) b1.diff_
      pure (blobs.set 1 { b1 with diff_ := bias_diff })
    else pure blobs
  else pure blobs

/-- Body of the loop over `i` in `Backward_cpu` (lines 182-205); the state is the pair
(`blobs_`, `bottom`). -/
def Backward_cpu_pair [CommRing R] (L : Layer R) (top : List (Blob R))
    (propagate_down : List Bool) (st : List (Blob R) × List (Blob R)) (i : Nat) :
    Except Fault (List (Blob R) × List (Blob R)) := do
  let t ← elemAt top i
  let b ← elemAt st.2 i
  let blobs ← Backward_cpu_bias_part L t.diff_ st.1
  let p0 ← elemAt L.param_propagate_down_ 0
  let enter ← if p0 then pure true else elemAt propagate_down i
  if enter then
    let w ← elemAt blobs 0
    let r ← (List.range L.num_).foldlM
      (Backward_cpu_sample L w.data_ b.data_ t.diff_ propagate_down i) (w.diff_, b.diff_)
    pure (blobs.set 0 { w with diff_ := r.1 }, st.2.set i { b with diff_ := r.2 })
  else
    pure (blobs, st.2)

/-- The method `DepthwiseConvolutionLayer::Backward_cpu(top, propagate_down, bottom)`; returns the
layer and the `bottom` vector after the call. -/
def Backward_cpu [CommRing R] (L : Layer R) (top : List (Blob R)) (propagate_down : List Bool)
    (bottom : List (Blob R)) : Except Fault (Layer R × List (Blob R)) := do
  let _ ← elemAt L.blobs_ 0
  let r ← (List.range top.length).foldlM (Backward_cpu_pair L top propagate_down)
    (L.blobs_, bottom)
  pure ({ L with blobs_ := r.1 }, r.2)

/-! ## Statements of the specification -/

/-- A group of `LayerSetUp` can be resolved without reading past the end of its list: both
explicit fields are present, or the list is not empty. -/
def Resolvable (xh xw : Option Int) (list : List Int) : Prop :=
  (xh.isSome ∧ xw.isSome) ∨ list ≠ []

instance (xh xw : Option Int) (list : List Int) : Decidable (Resolvable xh xw list) := by
  unfold Resolvable; infer_instance

/-- The resolution rule of spec §4.1 for one group, as a relation between the configuration
and the pair `(h, w)`: the explicit pair wins if present; else a length-1 list yields
h = w = its value; a length-2 list yields h = list[0], w = list[1]. -/
def ResolvedAs (xh xw : Option Int) (list : List Int) (h w : Int) : Prop :=
  (∀ eh ew, xh = some eh → xw = some ew → h = eh ∧ w = ew) ∧
  (¬ (xh.isSome ∧ xw.isSome) → ∀ v, list = [v] → h = v ∧ w = v) ∧
  (¬ (xh.isSome ∧ xw.isSome) → ∀ a b, list = [a, b] → h = a ∧ w = b)

/-- The dilation rule of spec §4.1: (1, 1) for the empty list, (v, v) for a single value,
(list[0], list[1]) for two values. -/
def DilationResolvedAs (list : List Int) (h w : Int) : Prop :=
  (list = [] → h = 1 ∧ w = 1) ∧
  (∀ v, list = [v] → h = v ∧ w = v) ∧
  (∀ a b, list = [a, b] → h = a ∧ w = b)

/-- The parameter domain of the output-dimension formula for one axis:
kernel >= 1, stride >= 1, dilation >= 1, pad >= 0 and input_dim >= 1. -/
def InDomain (input_dim pad dilation kernel stride : ℤ) : Prop :=
  1 ≤ kernel ∧ 1 ≤ stride ∧ 1 ≤ dilation ∧ 0 ≤ pad ∧ 1 ≤ input_dim

instance (input_dim pad dilation kernel stride : ℤ) :
    Decidable (InDomain input_dim pad dilation kernel stride) := by
  unfold InDomain; infer_instance

/-- Output dimension of spec §3 and §4.2, with the mathematical floor of the exact quotient:
⌊(input_dim + 2·pad − (dilation·(kernel−1)+1)) / stride⌋ + 1. -/
def specOutputDim (input_dim pad dilation kernel stride : ℤ) : ℤ :=
  ⌊((input_dim + 2 * pad - (dilation * (kernel - 1) + 1) : ℤ) : ℚ) / (stride : ℚ)⌋ + 1

/-- Entry `input[n, c, ih, iw]` of a 4-D tensor under implicit zero-padding (spec §4.4): a
coordinate outside `[0,H) x [0,W)` contributes zero. -/
def Blob.padded_at [Zero R] (b : Blob R) (n c : Nat) (ih iw : Int) : R :=
  if 0 ≤ ih ∧ ih < b.height ∧ 0 ≤ iw ∧ iw < b.width then b.data_at n c ih.toNat iw.toNat else 0

/-! ## Concrete layers and tensors -/

/-- A layer object right after construction from its configuration: nothing resolved,
no parameters, empty buffers. -/
def Layer.fresh (cp : ConvolutionParameter) : Layer R :=
  { conv_param := cp, blobs_ := [], param_propagate_down_ := []
    kernel_h_ := 0, kernel_w_ := 0, stride_h_ := 0, stride_w_ := 0, pad_h_ := 0, pad_w_ := 0
    dilation_h_ := 0, dilation_w_ := 0
    weight_buffer_ := ⟨[], [], []⟩, weight_multiplier_ := ⟨[], [], []⟩
    bias_buffer_ := ⟨[], [], []⟩, bias_multiplier_ := ⟨[], [], []⟩
    kernel_shape_ := [], stride_ := [], pad_ := [], dilation_ := [], num_spatial_axes_ := 0
    input_shape := [], output_shape_ := [], num_ := 0, bottom_dim_ := 0, top_dim_ := 0
    bias_term_ := false }

/-- Configuration "kernel 3, stride 1, pad 1", given through the lists, no dilation entry. -/
def boxParam (bias : Bool) : ConvolutionParameter :=
  { kernel_h := none, kernel_w := none, stride_h := none, stride_w := none
    pad_h := none, pad_w := none
    kernel_size := [3], stride := [1], pad := [1], dilation := [], bias_term := bias
    weight_filler := ⟨"constant"⟩, bias_filler := ⟨"constant"⟩ }

/-- A filler that stores the value one everywhere and leaves the generator alone. -/
def onesFiller : FillerParameter → Filler ℤ :=
  fun _ rng shape => (List.replicate shape.prod.toNat 1, rng)

/-- The 1x1x4x4 input with all entries one. -/
def onesInput : Blob ℤ :=
  { shape_ := [1, 1, 4, 4], data_ := List.replicate 16 1, diff_ := List.replicate 16 0 }

/-- An output tensor that has not been shaped yet. -/
def emptyBlob : Blob ℤ := ⟨[], [], []⟩

/-- The layer with a 3x3 kernel, stride 1, pad 1, dilation 1 resolved, for a 1x1x4x4 input;
the base-class arrays hold the same parameters for the two spatial axes. -/
def boxLayer : Layer ℤ :=
  { (Layer.fresh (boxParam false) : Layer ℤ) with
    kernel_h_ := 3, kernel_w_ := 3, stride_h_ := 1, stride_w_ := 1, pad_h_ := 1, pad_w_ := 1
    dilation_h_ := 1, dilation_w_ := 1
    kernel_shape_ := [3, 3], stride_ := [1, 1], pad_ := [1, 1], dilation_ := [1, 1]
    num_spatial_axes_ := 2, input_shape := [1, 4, 4] }

/-- A layer whose base-class arrays hold kernel 3, stride 3, pad 0, dilation 1 for two spatial
axes of input size 1: the kernel extent 3 exceeds the padded input size 1. -/
def tightLayer : Layer ℤ :=
  { (Layer.fresh (boxParam false) : Layer ℤ) with
    kernel_shape_ := [3, 3], stride_ := [3, 3], pad_ := [0, 0], dilation_ := [1, 1]
    num_spatial_axes_ := 2, input_shape := [1, 1, 1] }

/-- A configuration that mixes the two ways of giving a group: explicit kernel 5x3 next to a
kernel list, a one-element stride list, a two-element pad list, a one-element dilation list. -/
def mixedParam : ConvolutionParameter :=
  { kernel_h := some 5, kernel_w := some 3, stride_h := none, stride_w := none
    pad_h := none, pad_w := none
    kernel_size := [7], stride := [2], pad := [1, 0], dilation := [2], bias_term := true
    weight_filler := ⟨"constant"⟩, bias_filler := ⟨"constant"⟩ }

/-- A layer whose parameter storage already holds a weight and a bias (as after restoring
a checkpoint). -/
def restoredLayer : Layer ℤ :=
  { (Layer.fresh (boxParam true) : Layer ℤ) with
    blobs_ := [{ shape_ := [1, 1, 3, 3], data_ := [1, 2, 3, 4, 5, 6, 7, 8, 9],
                 diff_ := List.replicate 9 0 },
               { shape_ := [1], data_ := [7], diff_ := [0] }]
    param_propagate_down_ := [true, true] }

/-- The 3x3 kernel with all entries one, as the weight tensor of a one-channel layer. -/
def onesKernel : Blob ℤ :=
  { shape_ := [1, 1, 3, 3], data_ := List.replicate 9 1, diff_ := List.replicate 9 0 }

/-- The 1x1x4x4 output tensor before the forward pass (all zero). -/
def zeroOutput : Blob ℤ :=
  { shape_ := [1, 1, 4, 4], data_ := List.replicate 16 0, diff_ := List.replicate 16 0 }

/-- The box layer ready for a pass over one 1x1x4x4 sample: all-ones 3x3 weight, no bias,
one sample of 16 input and 16 output values. -/
def boxForwardLayer : Layer ℤ :=
  { boxLayer with
    blobs_ := [onesKernel], param_propagate_down_ := [true]
    input_shape := [1, 4, 4], output_shape_ := [4, 4]
    num_ := 1, bottom_dim_ := 16, top_dim_ := 16, bias_term_ := false }

/-- An output tensor of shape 1x1x4x4 carrying the output gradient 1, 2, ..., 16. -/
def gradOutput : Blob ℤ :=
  { shape_ := [1, 1, 4, 4], data_ := List.replicate 16 0
    diff_ := [1, 2, 3, 4, 5, 6, 7, 8, 9, 10, 11, 12, 13, 14, 15, 16] }

/-- The box layer with a bias: all-ones 3x3 weight, bias 0, both gradient buffers zero, both
gradient flags set. -/
def boxBiasLayer : Layer ℤ :=
  { boxForwardLayer with
    blobs_ := [onesKernel, { shape_ := [1], data_ := [0], diff_ := [0] }]
    param_propagate_down_ := [true, true], bias_term_ := true }

/-- The box layer with bias where only the bias gradient is requested. -/
def biasOnlyLayer : Layer ℤ :=
  { boxBiasLayer with param_propagate_down_ := [false, true] }

/-! ## Closed forms used in the proofs -/

/-- The data of `blobs_[1]` (the bias); empty when the layer has no such tensor. -/
def Layer.biasData (L : Layer R) : List R :=
  match L.blobs_[1]? with
  | some b => b.data_
  | none => []

/-- The buffer one iteration of the loop over `n` in `Forward_cpu` leaves, when `blobs_[1]`
can be read. -/
def forwardSample [CommRing R] (L : Layer R) (bottom_data weight top_data : List R) (n : Nat) :
    List R :=
  if L.bias_term_ then
    forward_cpu_bias L
      (forward_cpu_gemm L bottom_data (n * L.bottom_dim_) weight top_data (n * L.top_dim_))
      (n * L.top_dim_) L.biasData
  else
    forward_cpu_gemm L bottom_data (n * L.bottom_dim_) weight top_data (n * L.top_dim_)

/-- The value the forward pass stores at flat position `k` of sample `n`. -/
def forwardValue [CommRing R] (L : Layer R) (bottom_data weight : List R) (n k : Nat) : R :=
  (∑ kh in Finset.range L.geom.KH, ∑ kw in Finset.range L.geom.KW,
    rd weight ((k / (L.geom.OH * L.geom.OW) * L.geom.KH + kh) * L.geom.KW + kw) *
      paddedAt L.geom bottom_data (n * L.bottom_dim_) (k / (L.geom.OH * L.geom.OW))
        ((k / L.geom.OW % L.geom.OH : Nat) * L.geom.SH - L.geom.PH + kh * L.geom.DH)
        ((k % L.geom.OW : Nat) * L.geom.SW - L.geom.PW + kw * L.geom.DW)) +
    if L.bias_term_ then rd L.biasData (k / (L.geom.OH * L.geom.OW)) else 0

/-- The data of tensor `i` of a vector of tensors; empty when there is no such tensor. -/
def dataOf (bs : List (Blob R)) (i : Nat) : List R :=
  match bs[i]? with
  | some b => b.data_
  | none => []

/-- The gradient buffer of tensor `i` of a vector of tensors; empty when there is no such
tensor. -/
def diffOf (bs : List (Blob R)) (i : Nat) : List R :=
  match bs[i]? with
  | some b => b.diff_
  | none => []

/-- What `weight_cpu_gemm` adds to cell `k` of a weight-gradient buffer of `len` cells, for the
sample of the input at `in_off` and of the output gradient at `td_off`. -/
def weightDelta [CommRing R] (L : Layer R) (input : List R) (in_off : Nat) (top_diff : List R)
    (td_off len k : Nat) : R :=
  if k < L.geom.C * L.geom.KH * L.geom.KW ∧ k < len then
    ∑ oh in Finset.range L.geom.OH, ∑ ow in Finset.range L.geom.OW,
      paddedAt L.geom input in_off (k / (L.geom.KH * L.geom.KW))
          (oh * L.geom.SH - L.geom.PH + (k / L.geom.KW % L.geom.KH : Nat) * L.geom.DH)
          (ow * L.geom.SW - L.geom.PW + (k % L.geom.KW : Nat) * L.geom.DW) *
        rd top_diff (td_off + (k / (L.geom.KH * L.geom.KW) * L.geom.OH + oh) * L.geom.OW + ow)
  else 0

/-- What `backward_cpu_bias` adds to cell `c` of a bias-gradient buffer of `len` cells, for the
sample of the output gradient at `td_off`. -/
def biasDelta [CommRing R] (L : Layer R) (top_diff : List R) (td_off len c : Nat) : R :=
  if c < L.geom.C ∧ c < len then
    ∑ oh in Finset.range L.geom.OH, ∑ ow in Finset.range L.geom.OW,
      rd top_diff (td_off + (c * L.geom.OH + oh) * L.geom.OW + ow)
  else 0

/-- The weight gradient one `Backward_cpu` call contributes to cell `k`: the sum over every
tensor pair `i` and every sample `n` of the per-sample contribution. -/
def weightGrad [CommRing R] (L : Layer R) (top bottom : List (Blob R)) (len k : Nat) : R :=
  ∑ i in Finset.range top.length, ∑ n in Finset.range L.num_,
    weightDelta L (dataOf bottom i) (n * L.bottom_dim_) (diffOf top i) (n * L.top_dim_) len k

/-- The pair of buffers (`weight_diff`, `bottom_diff`) one iteration of the loop over `n` in
`Backward_cpu` leaves, for gradient flags `p0` (weight) and `pd` (input of the pair). -/
def backwardSample [CommRing R] (L : Layer R) (weight bottom_data top_diff : List R)
    (p0 pd : Bool) (st : List R × List R) (n : Nat) : List R × List R :=
  (if p0 then
      weight_cpu_gemm L bottom_data (n * L.bottom_dim_) top_diff (n * L.top_dim_) st.1
    else st.1,
   if pd then
      backward_cpu_gemm L top_diff (n * L.top_dim_) weight st.2 (n * L.bottom_dim_)
    else st.2)

/-- The bias-gradient buffer after the loop over `n` at lines 188-190. -/
def backwardBiasDiff [CommRing R] (L : Layer R) (top_diff bias_diff : List R) : List R :=
  (List.range L.num_).foldl
    (fun bias_diff n => backward_cpu_bias L bias_diff top_diff (n * L.top_dim_)) bias_diff

/-- The parameter list after lines 186-191 of `Backward_cpu`, when every read succeeds. -/
def backwardBias [CommRing R] (L : Layer R) (top_diff : List R) (blobs : List (Blob R)) :
    List (Blob R) :=
  match blobs[1]? with
  | some b1 =>
    if L.bias_term_ && L.param_propagate_down_.getD 1 false then
      blobs.set 1 { b1 with diff_ := backwardBiasDiff L top_diff b1.diff_ }
    else blobs
  | none => blobs

/-- The frame of the backward pass, between a state `s` = (parameter list, bottom vector) and
a later state `s'`: no tensor appears or disappears, no data and no shape changes, the
gradient of `blobs_[0]` is the same when the weight's gradient flag is false, the gradient of
`blobs_[1]` is the same when bias is disabled or its gradient flag is false, parameters past
the first two are the same, and bottom tensor `i` is the same when propagate flag `i` is
false. -/
def BackwardFrame (L : Layer R) (propagate_down : List Bool)
    (s s' : List (Blob R) × List (Blob R)) : Prop :=
  s'.1.length = s.1.length ∧ s'.2.length = s.2.length ∧
  (∀ k : Nat, s'.1[k]?.map Blob.data_ = s.1[k]?.map Blob.data_) ∧
  (∀ k : Nat, s'.1[k]?.map Blob.shape_ = s.1[k]?.map Blob.shape_) ∧
  (∀ i : Nat, s'.2[i]?.map Blob.data_ = s.2[i]?.map Blob.data_) ∧
  (∀ i : Nat, s'.2[i]?.map Blob.shape_ = s.2[i]?.map Blob.shape_) ∧
  (L.param_propagate_down_[0]? = some false → s'.1[0]? = s.1[0]?) ∧
  ((L.bias_term_ = false ∨ L.param_propagate_down_[1]? = some false) → s'.1[1]? = s.1[1]?) ∧
  (∀ k : Nat, 2 ≤ k → s'.1[k]? = s.1[k]?) ∧
  (∀ i : Nat, propagate_down[i]? = some false → s'.2[i]? = s.2[i]?)

/-! ## Further statements of the specification -/

/-- A group is given the way spec §4.1 allows: both explicit fields are present, or the list
has length 1 or 2. -/
def GroupGiven (xh xw : Option Int) (list : List Int) : Prop :=
  (xh.isSome ∧ xw.isSome) ∨ list.length = 1 ∨ list.length = 2

instance (xh xw : Option Int) (list : List Int) : Decidable (GroupGiven xh xw list) := by
  unfold GroupGiven; infer_instance

/-- The explicit fields of one group with a value given for one axis only dropped: a full pair
is kept, anything else becomes "no explicit field". -/
def dropLonePair (xh xw : Option Int) : Option Int × Option Int :=
  match xh, xw with
  | some h, some w => (some h, some w)
  | _, _ => (none, none)

/-- The configuration with every explicit kernel, stride or pad value that is given for one
axis only dropped; nothing else changes. -/
def dropLoneExplicit (cp : ConvolutionParameter) : ConvolutionParameter :=
  { cp with
    kernel_h := (dropLonePair cp.kernel_h cp.kernel_w).1
    kernel_w := (dropLonePair cp.kernel_h cp.kernel_w).2
    stride_h := (dropLonePair cp.stride_h cp.stride_w).1
    stride_w := (dropLonePair cp.stride_h cp.stride_w).2
    pad_h := (dropLonePair cp.pad_h cp.pad_w).1
    pad_w := (dropLonePair cp.pad_h cp.pad_w).2 }

/-- A configuration with explicit values on one axis only: `kernel_h` without `kernel_w`,
`stride_w` without `stride_h`, next to the lists [3], [2] and [1, 0]. -/
def loneParam : ConvolutionParameter :=
  { kernel_h := some 9, kernel_w := none, stride_h := none, stride_w := some 7
    pad_h := none, pad_w := none
    kernel_size := [3], stride := [2], pad := [1, 0], dilation := [], bias_term := false
    weight_filler := ⟨"constant"⟩, bias_filler := ⟨"constant"⟩ }

/-- The window property of an output dimension `out` on one axis: there is at least one output
position, the window of the last position ends inside the zero-padded input, and one more
position would not fit:
out >= 1 and (out-1)*stride + extent <= input_dim + 2*pad < out*stride + extent, with
extent = dilation*(kernel-1)+1. -/
def FitsWindow (out input_dim pad dilation kernel stride : ℤ) : Prop :=
  1 ≤ out ∧
  (out - 1) * stride + (dilation * (kernel - 1) + 1) ≤ input_dim + 2 * pad ∧
  input_dim + 2 * pad < out * stride + (dilation * (kernel - 1) + 1)

instance (out input_dim pad dilation kernel stride : ℤ) :
    Decidable (FitsWindow out input_dim pad dilation kernel stride) := by
  unfold FitsWindow; infer_instance

/-- A layer with kernel 3, stride 2, pad 1, dilation 2 on both axes (kernel extent 5), for a
1x1x8x8 input. -/
def stridedLayer : Layer ℤ :=
  { (Layer.fresh (boxParam false) : Layer ℤ) with
    kernel_h_ := 3, kernel_w_ := 3, stride_h_ := 2, stride_w_ := 2, pad_h_ := 1, pad_w_ := 1
    dilation_h_ := 2, dilation_w_ := 2
    kernel_shape_ := [3, 3], stride_ := [2, 2], pad_ := [1, 1], dilation_ := [2, 2]
    num_spatial_axes_ := 2, input_shape := [1, 8, 8] }

/-- The 1x1x8x8 input with all entries zero. -/
def wideInput : Blob ℤ :=
  { shape_ := [1, 1, 8, 8], data_ := List.replicate 64 0, diff_ := List.replicate 64 0 }

/-- The 3x3 kernel whose gradient buffer already holds 10, 20, ..., 90. -/
def primedKernel : Blob ℤ :=
  { onesKernel with diff_ := [10, 20, 30, 40, 50, 60, 70, 80, 90] }

/-- The box layer with a weight gradient left over from an earlier call. -/
def primedLayer : Layer ℤ :=
  { boxForwardLayer with blobs_ := [primedKernel] }

/-! ## Basic facts -/

theorem elemAt_eq_ok {α : Type} {xs : List α} {i : Nat} {x : α} (h : xs[i]? = some x) :
    elemAt xs i = .ok x := by
  simp [elemAt, h]

theorem elemAt_ok_iff {α : Type} {xs : List α} {i : Nat} {x : α} :
    elemAt xs i = .ok x ↔ xs[i]? = some x := by
  unfold elemAt
  cases h : xs[i]? <;> simp

theorem elemAt_getD {xs : List Int} {i : Nat} (h : i < xs.length) :
    elemAt xs i = .ok (xs.getD i 0) := by
  apply elemAt_eq_ok
  simp [List.getD_eq_getElem?_getD, List.getElem?_eq_getElem h]

/-! ## Parameter resolution (`LayerSetUp`) -/

theorem resolvePair_list {xh xw : Option Int} (hx : ¬ (xh.isSome ∧ xw.isSome)) (list : List Int) :
    resolvePair xh xw list =
      if list.length = 1 then (do
        let h ← elemAt list 0
        let w ← elemAt list 0
        pure (h, w))
      else (do
        let h ← elemAt list 0
        let w ← elemAt list 1
        pure (h, w)) := by
  cases xh <;> cases xw <;> simp_all [resolvePair]

theorem resolvePair_single {xh xw : Option Int} (hx : ¬ (xh.isSome ∧ xw.isSome)) (v : Int) :
    resolvePair xh xw [v] = .ok (v, v) := by
  rw [resolvePair_list hx]; rfl

theorem resolvePair_two {xh xw : Option Int} (hx : ¬ (xh.isSome ∧ xw.isSome)) (a b : Int)
    (rest : List Int) :
    resolvePair xh xw (a :: b :: rest) = .ok (a, b) := by
  rw [resolvePair_list hx]; simp [elemAt]; rfl

theorem resolvePair_ok {xh xw : Option Int} {list : List Int} (h : Resolvable xh xw list) :
    ∃ p, resolvePair xh xw list = .ok p := by
  by_cases hx : xh.isSome ∧ xw.isSome
  · obtain ⟨h1, h2⟩ := hx
    obtain ⟨a, rfl⟩ := Option.isSome_iff_exists.mp h1
    obtain ⟨b, rfl⟩ := Option.isSome_iff_exists.mp h2
    exact ⟨_, rfl⟩
  · rcases h with h | h
    · exact absurd h hx
    · match list, h with
      | [v], _ => exact ⟨_, resolvePair_single hx v⟩
      | a :: b :: rest, _ => exact ⟨_, resolvePair_two hx a b rest⟩

theorem resolvePair_resolvedAs {xh xw : Option Int} {list : List Int} {p : Int × Int}
    (h : resolvePair xh xw list = .ok p) : ResolvedAs xh xw list p.1 p.2 := by
  refine ⟨?_, ?_, ?_⟩
  · rintro eh ew rfl rfl
    have : p = (eh, ew) := by
      have h' : (Except.ok (eh, ew) : Except Fault (Int × Int)) = .ok p := h
      injection h' with h'
      exact h'.symm
    simp [this]
  · rintro hx v rfl
    rw [resolvePair_single hx v] at h
    injection h with h
    simp [← h]
  · rintro hx a b rfl
    rw [resolvePair_two hx a b []] at h
    injection h with h
    simp [← h]

theorem resolveDilation_ok (list : List Int) : ∃ p, resolveDilation list = .ok p := by
  match list with
  | [] => exact ⟨_, rfl⟩
  | [v] => exact ⟨_, rfl⟩
  | a :: b :: rest => exact ⟨(a, b), by simp [resolveDilation, elemAt]; rfl⟩

theorem resolveDilation_resolvedAs {list : List Int} {p : Int × Int}
    (h : resolveDilation list = .ok p) : DilationResolvedAs list p.1 p.2 := by
  refine ⟨?_, ?_, ?_⟩
  · rintro rfl
    have h' : (Except.ok (1, 1) : Except Fault (Int × Int)) = .ok p := h
    injection h' with h'
    simp [← h']
  · rintro v rfl
    have h' : (Except.ok (v, v) : Except Fault (Int × Int)) = .ok p := h
    injection h' with h'
    simp [← h']
  · rintro a b rfl
    have h' : (Except.ok (a, b) : Except Fault (Int × Int)) = .ok p := h
    injection h' with h'
    simp [← h']

theorem LayerSetUp_of_resolved [Zero R] (GetFiller : FillerParameter → Filler R) (L : Layer R)
    (W : FillerWorld) (bottom : List (Blob R)) {kernel stride pad dilation : Int × Int}
    {b0 : Blob R}
    (hk : resolvePair L.conv_param.kernel_h L.conv_param.kernel_w L.conv_param.kernel_size
      = .ok kernel)
    (hs : resolvePair L.conv_param.stride_h L.conv_param.stride_w L.conv_param.stride
      = .ok stride)
    (hp : resolvePair L.conv_param.pad_h L.conv_param.pad_w L.conv_param.pad = .ok pad)
    (hd : resolveDilation L.conv_param.dilation = .ok dilation)
    (hb : bottom[0]? = some b0) :
    LayerSetUp GetFiller L W bottom = .ok
      ({ L with
          kernel_h_ := kernel.1, kernel_w_ := kernel.2
          stride_h_ := stride.1, stride_w_ := stride.2
          pad_h_ := pad.1, pad_w_ := pad.2
          dilation_h_ := dilation.1, dilation_w_ := dilation.2
          blobs_ := (initBlobs GetFiller L.conv_param [b0.channels, 1, kernel.1, kernel.2]
            (if L.conv_param.bias_term then [b0.channels] else []) L.blobs_ W).1
          param_propagate_down_ := resizeTrue L.param_propagate_down_
            (initBlobs GetFiller L.conv_param [b0.channels, 1, kernel.1, kernel.2]
              (if L.conv_param.bias_term then [b0.channels] else []) L.blobs_ W).1.length },
        (initBlobs GetFiller L.conv_param [b0.channels, 1, kernel.1, kernel.2]
            (if L.conv_param.bias_term then [b0.channels] else []) L.blobs_ W).2) := by
  unfold LayerSetUp
  dsimp only
  rw [hk, hs, hp, hd, elemAt_eq_ok hb]
  rfl

theorem LayerSetUp_ok_inv [Zero R] (GetFiller : FillerParameter → Filler R) (L : Layer R)
    (W : FillerWorld) (bottom : List (Blob R)) {L' : Layer R} {W' : FillerWorld}
    (h : LayerSetUp GetFiller L W bottom = .ok (L', W')) :
    ∃ kernel stride pad dilation b0,
      resolvePair L.conv_param.kernel_h L.conv_param.kernel_w L.conv_param.kernel_size
        = .ok kernel ∧
      resolvePair L.conv_param.stride_h L.conv_param.stride_w L.conv_param.stride
        = .ok stride ∧
      resolvePair L.conv_param.pad_h L.conv_param.pad_w L.conv_param.pad = .ok pad ∧
      resolveDilation L.conv_param.dilation = .ok dilation ∧
      bottom[0]? = some b0 := by
  unfold LayerSetUp at h
  dsimp only at h
  cases hk : resolvePair L.conv_param.kernel_h L.conv_param.kernel_w L.conv_param.kernel_size with
  | error e => rw [hk] at h; cases h
  | ok kernel =>
    cases hs : resolvePair L.conv_param.stride_h L.conv_param.stride_w L.conv_param.stride with
    | error e => rw [hk, hs] at h; cases h
    | ok stride =>
      cases hp : resolvePair L.conv_param.pad_h L.conv_param.pad_w L.conv_param.pad with
      | error e => rw [hk, hs, hp] at h; cases h
      | ok pad =>
        cases hd : resolveDilation L.conv_param.dilation with
        | error e => rw [hk, hs, hp, hd] at h; cases h
        | ok dilation =>
          cases hb : elemAt bottom 0 with
          | error e => rw [hk, hs, hp, hd, hb] at h; cases h
          | ok b0 =>
            exact ⟨kernel, stride, pad, dilation, b0, rfl, rfl, rfl, rfl, elemAt_ok_iff.mp hb⟩

theorem exists_head_of_ne_nil {α : Type} {xs : List α} (h : xs ≠ []) : ∃ x, xs[0]? = some x := by
  cases xs with
  | nil => exact absurd rfl h
  | cons x _ => exact ⟨x, by simp⟩

theorem initBlobs_of_ne_nil [Zero R] (GetFiller : FillerParameter → Filler R)
    (cp : ConvolutionParameter) (ws bs : List Int) {blobs : List (Blob R)} (W : FillerWorld)
    (h : blobs ≠ []) : initBlobs GetFiller cp ws bs blobs W = (blobs, W) := by
  unfold initBlobs
  rw [if_neg]
  simpa using h

theorem initBlobs_ne_nil [Zero R] (GetFiller : FillerParameter → Filler R)
    (cp : ConvolutionParameter) (ws bs : List Int) (blobs : List (Blob R)) (W : FillerWorld) :
    (initBlobs GetFiller cp ws bs blobs W).1 ≠ [] := by
  unfold initBlobs
  split
  · split <;> simp
  · rename_i h
    simpa using h

theorem resizeTrue_length (v : List Bool) (n : Nat) : (resizeTrue v n).length = n := by
  simp [resizeTrue]
  omega

theorem resizeTrue_of_length {v : List Bool} {n : Nat} (h : v.length = n) :
    resizeTrue v n = v := by
  simp [resizeTrue, ← h]

/-- A layer that already holds the resolved parameters of `L`, a non-empty parameter storage
and one gradient flag per parameter is a fixed point of `LayerSetUp`. -/
theorem LayerSetUp_fixed_of_resolved [Zero R] (GetFiller : FillerParameter → Filler R)
    (L L1 : Layer R) (W1 : FillerWorld) (bottom : List (Blob R))
    {kernel stride pad dilation : Int × Int} {b0 : Blob R}
    (hk : resolvePair L.conv_param.kernel_h L.conv_param.kernel_w L.conv_param.kernel_size
      = .ok kernel)
    (hs : resolvePair L.conv_param.stride_h L.conv_param.stride_w L.conv_param.stride
      = .ok stride)
    (hp : resolvePair L.conv_param.pad_h L.conv_param.pad_w L.conv_param.pad = .ok pad)
    (hd : resolveDilation L.conv_param.dilation = .ok dilation)
    (hb : bottom[0]? = some b0)
    (hcp : L1.conv_param = L.conv_param) (hne : L1.blobs_ ≠ [])
    (hlen : L1.param_propagate_down_.length = L1.blobs_.length)
    (h1 : L1.kernel_h_ = kernel.1) (h2 : L1.kernel_w_ = kernel.2)
    (h3 : L1.stride_h_ = stride.1) (h4 : L1.stride_w_ = stride.2)
    (h5 : L1.pad_h_ = pad.1) (h6 : L1.pad_w_ = pad.2)
    (h7 : L1.dilation_h_ = dilation.1) (h8 : L1.dilation_w_ = dilation.2) :
    LayerSetUp GetFiller L1 W1 bottom = .ok (L1, W1) := by
  rw [LayerSetUp_of_resolved GetFiller L1 W1 bottom (hcp ▸ hk) (hcp ▸ hs) (hcp ▸ hp) (hcp ▸ hd) hb]
  rw [initBlobs_of_ne_nil GetFiller _ _ _ _ hne]
  simp only
  rw [resizeTrue_of_length hlen, ← h1, ← h2, ← h3, ← h4, ← h5, ← h6, ← h7, ← h8]

/-! ## Output dimensions (`Reshape`, `compute_output_shape`) -/

theorem floor_div_eq_ediv (a s : ℤ) (hs : 0 < s) : ⌊(a : ℚ) / (s : ℚ)⌋ = a / s := by
  obtain ⟨n, rfl⟩ := Int.eq_ofNat_of_zero_le hs.le
  have := Rat.floor_intCast_div_natCast a n
  simpa using this

theorem tdiv_eq_floor_iff (a s : ℤ) (hs : 0 < s) :
    a.tdiv s = ⌊(a : ℚ) / (s : ℚ)⌋ ↔ (0 ≤ a ∨ s ∣ a) := by
  rw [floor_div_eq_ediv a s hs]
  constructor
  · intro h
    by_cases ha : 0 ≤ a
    · exact Or.inl ha
    · right
      have e1 : a.tdiv s = -((-a) / s) := by
        rw [← Int.tdiv_eq_ediv (by omega) hs.le, Int.neg_tdiv, neg_neg]
      have d1 := Int.emod_add_ediv a s
      have d2 := Int.emod_add_ediv (-a) s
      have r1 := Int.emod_nonneg a hs.ne'
      have r2 := Int.emod_nonneg (-a) hs.ne'
      have hq : (-a) / s = -(a / s) := by omega
      rw [hq] at d2
      have : a % s + (-a) % s = 0 := by
        have : s * (a / s) + s * -(a / s) = 0 := by ring
        omega
      have h0 : a % s = 0 := by omega
      exact Int.dvd_of_emod_eq_zero h0
  · rintro (ha | hd)
    · exact Int.tdiv_eq_ediv ha hs.le
    · exact Int.tdiv_eq_ediv_of_dvd hd

/-- With the kernel extent inside the padded input the quotient of the source is the
mathematical floor. -/
theorem tdiv_add_one_eq_specOutputDim (input_dim pad dilation kernel stride : ℤ)
    (hs : 1 ≤ stride) (hfit : dilation * (kernel - 1) + 1 ≤ input_dim + 2 * pad) :
    (input_dim + 2 * pad - (dilation * (kernel - 1) + 1)).tdiv stride + 1
      = specOutputDim input_dim pad dilation kernel stride := by
  unfold specOutputDim
  rw [(tdiv_eq_floor_iff _ _ (by omega)).mpr (Or.inl (by omega))]

theorem Blob.shape_Reshape [Zero R] (b : Blob R) (shape : List Int) :
    (b.Reshape shape).shape_ = shape := by
  unfold Blob.Reshape
  split <;> rfl

theorem Reshape_ok [Zero R] [One R] (L : Layer R) (bottom top : List (Blob R)) {b0 t0 : Blob R}
    (hb : bottom[0]? = some b0) (ht : top[0]? = some t0)
    (hsh : L.stride_h_ ≠ 0) (hsw : L.stride_w_ ≠ 0) :
    ∃ L', Reshape L bottom top = .ok (L', top.set 0 (t0.Reshape
      [b0.num, b0.channels,
       (b0.height + 2 * L.pad_h_ - (L.dilation_h_ * (L.kernel_h_ - 1) + 1)).tdiv L.stride_h_ + 1,
       (b0.width + 2 * L.pad_w_ - (L.dilation_w_ * (L.kernel_w_ - 1) + 1)).tdiv L.stride_w_ + 1])) := by
  unfold Reshape
  rw [elemAt_eq_ok hb, elemAt_eq_ok ht]
  by_cases hbias : L.conv_param.bias_term = true
  · simp [hsh, hsw, hbias]
    exact ⟨_, rfl⟩
  · simp [hsh, hsw, hbias]
    exact ⟨_, rfl⟩

theorem getElem?_set_zero_of_some {α : Type} {xs : List α} {x y : α} (h : xs[0]? = some x) :
    (xs.set 0 y)[0]? = some y := by
  cases xs with
  | nil => simp at h
  | cons a as => simp

/-- The value `compute_output_shape` appends for axis `i`. -/
theorem compute_output_shape_step_ok (L : Layer R) (acc : List Int) (i : Nat)
    (hin : i + 1 < L.input_shape.length) (hk : i < L.kernel_shape_.length)
    (hs : i < L.stride_.length) (hp : i < L.pad_.length) (hd : i < L.dilation_.length)
    (hnz : L.stride_.getD i 0 ≠ 0) :
    compute_output_shape_step L acc i = .ok (acc ++
      [(L.input_shape.getD (i + 1) 0 + 2 * L.pad_.getD i 0
          - (L.dilation_.getD i 0 * (L.kernel_shape_.getD i 0 - 1) + 1)).tdiv (L.stride_.getD i 0)
        + 1]) := by
  unfold compute_output_shape_step
  rw [elemAt_getD hin, elemAt_getD hk, elemAt_getD hs, elemAt_getD hp, elemAt_getD hd]
  simp only [bind, Except.bind]
  rw [if_neg hnz]
  rfl

theorem compute_output_shape_loop (L : Layer R) (m : Nat)
    (hin : m + 1 ≤ L.input_shape.length) (hk : m ≤ L.kernel_shape_.length)
    (hs : m ≤ L.stride_.length) (hp : m ≤ L.pad_.length) (hd : m ≤ L.dilation_.length)
    (hnz : ∀ i, i < m → L.stride_.getD i 0 ≠ 0) (acc : List Int) :
    (List.range m).foldlM (compute_output_shape_step L) acc = .ok (acc ++
      (List.range m).map fun i =>
        (L.input_shape.getD (i + 1) 0 + 2 * L.pad_.getD i 0
          - (L.dilation_.getD i 0 * (L.kernel_shape_.getD i 0 - 1) + 1)).tdiv (L.stride_.getD i 0)
        + 1) := by
  induction m with
  | zero => simp; rfl
  | succ m ih =>
    rw [List.range_succ, List.foldlM_append, ih (by omega) (by omega) (by omega) (by omega)
      (by omega) (fun i hi => hnz i (by omega))]
    simp only [List.map_append, List.map_cons, List.map_nil]
    show (do
      let init ← pure _
      List.foldlM (compute_output_shape_step L) init [m]) = _
    rw [pure_bind, List.foldlM_cons, compute_output_shape_step_ok L _ m (by omega) (by omega)
      (by omega) (by omega) (by omega) (hnz m (by omega))]
    simp [List.append_assoc]

theorem compute_output_shape_ok (L : Layer R)
    (hin : L.num_spatial_axes_.toNat + 1 ≤ L.input_shape.length)
    (hk : L.num_spatial_axes_.toNat ≤ L.kernel_shape_.length)
    (hs : L.num_spatial_axes_.toNat ≤ L.stride_.length)
    (hp : L.num_spatial_axes_.toNat ≤ L.pad_.length)
    (hd : L.num_spatial_axes_.toNat ≤ L.dilation_.length)
    (hnz : ∀ i, i < L.num_spatial_axes_.toNat → L.stride_.getD i 0 ≠ 0) :
    ∃ L', compute_output_shape L = .ok L' ∧
      L'.output_shape_ = (List.range L.num_spatial_axes_.toNat).map fun i =>
        (L.input_shape.getD (i + 1) 0 + 2 * L.pad_.getD i 0
          - (L.dilation_.getD i 0 * (L.kernel_shape_.getD i 0 - 1) + 1)).tdiv (L.stride_.getD i 0)
        + 1 := by
  have hloop := compute_output_shape_loop L L.num_spatial_axes_.toNat hin hk hs hp hd hnz []
  unfold compute_output_shape
  rw [hloop]
  exact ⟨_, rfl, by simp⟩

/-! ## Flat buffers and loops -/

theorem length_writeSlice [Zero R] (buf : List R) (off len : Nat) (f : Nat → R) :
    (writeSlice buf off len f).length = buf.length := by
  simp [writeSlice]

theorem rd_of_length_le [Zero R] {buf : List R} {j : Nat} (h : buf.length ≤ j) : rd buf j = 0 := by
  simp [rd, List.getD_eq_getElem?_getD, List.getElem?_eq_none h]

theorem rd_writeSlice [Zero R] (buf : List R) (off len : Nat) (f : Nat → R) (j : Nat) :
    rd (writeSlice buf off len f) j =
      if off ≤ j ∧ j < off + len ∧ j < buf.length then f (j - off) else rd buf j := by
  by_cases hj : j < buf.length
  · have h1 : rd (writeSlice buf off len f) j
        = if off ≤ j ∧ j < off + len then f (j - off) else rd buf j := by
      simp [rd, writeSlice, List.getD_eq_getElem?_getD, List.getElem?_map,
        List.getElem?_range hj]
    rw [h1]
    by_cases hs : off ≤ j ∧ j < off + len
    · rw [if_pos hs, if_pos ⟨hs.1, hs.2, hj⟩]
    · rw [if_neg hs, if_neg (fun h => hs ⟨h.1, h.2.1⟩)]
  · have hj' : buf.length ≤ j := Nat.le_of_not_lt hj
    rw [if_neg (fun h => hj h.2.2), rd_of_length_le hj',
      rd_of_length_le (by rw [length_writeSlice]; exact hj')]

theorem rd_eq_of_eq_length_of_forall [Zero R] {a b : List R} (hlen : a.length = b.length)
    (h : ∀ j, rd a j = rd b j) : a = b := by
  apply List.ext_getElem hlen
  intro i h1 h2
  have := h i
  simpa [rd, List.getD_eq_getElem?_getD, List.getElem?_eq_getElem h1,
    List.getElem?_eq_getElem h2] using this

/-- A loop whose body never faults is the fold of the body's result. -/
theorem foldlM_eq_ok_foldl {α β : Type} (f : β → α → Except Fault β) (g : β → α → β)
    (l : List α) (h : ∀ b a, a ∈ l → f b a = .ok (g b a)) (b : β) :
    l.foldlM f b = .ok (l.foldl g b) := by
  induction l generalizing b with
  | nil => rfl
  | cons a l ih =>
    rw [List.foldlM_cons, h b a (List.mem_cons_self a l)]
    exact ih (fun b x hx => h b x (List.mem_cons_of_mem a hx)) (g b a)

/-- Row-major decoding of a flat index `(a * B + b) * C + c`. -/
theorem decode_flat (a b c B C : Nat) (hb : b < B) (hc : c < C) :
    ((a * B + b) * C + c) / (B * C) = a ∧ ((a * B + b) * C + c) / C % B = b ∧
      ((a * B + b) * C + c) % C = c := by
  have hC : 0 < C := by omega
  have hB : 0 < B := by omega
  have h1 : ((a * B + b) * C + c) / C = a * B + b := by
    rw [Nat.add_comm, Nat.add_mul_div_right _ _ hC, Nat.div_eq_of_lt hc, Nat.zero_add]
  have h2 : (a * B + b) / B = a := by
    rw [Nat.add_comm, Nat.add_mul_div_right _ _ hB, Nat.div_eq_of_lt hb, Nat.zero_add]
  refine ⟨?_, ?_, ?_⟩
  · rw [Nat.mul_comm B C, ← Nat.div_div_eq_div_mul, h1, h2]
  · rw [h1, Nat.add_comm, Nat.add_mul_mod_self_right, Nat.mod_eq_of_lt hb]
  · rw [Nat.add_comm, Nat.add_mul_mod_self_right, Nat.mod_eq_of_lt hc]

theorem flat_lt (a b c A B C : Nat) (ha : a < A) (hb : b < B) (hc : c < C) :
    (a * B + b) * C + c < A * B * C := by
  have h1 : a * B + b + 1 ≤ A * B := by
    calc a * B + b + 1 ≤ a * B + B := by omega
      _ = (a + 1) * B := by ring
      _ ≤ A * B := Nat.mul_le_mul_right B ha
  calc (a * B + b) * C + c < (a * B + b) * C + C := by omega
    _ = (a * B + b + 1) * C := by ring
    _ ≤ A * B * C := Nat.mul_le_mul_right C h1

/-! ## The forward pass -/

theorem Forward_cpu_sample_ok [CommRing R] (L : Layer R) (bottom_data weight top_data : List R)
    (n : Nat) (hbias : L.bias_term_ = true → ∃ b1, L.blobs_[1]? = some b1) :
    Forward_cpu_sample L bottom_data weight top_data n
      = .ok (forwardSample L bottom_data weight top_data n) := by
  unfold Forward_cpu_sample forwardSample
  by_cases hb : L.bias_term_ = true
  · obtain ⟨b1, hb1⟩ := hbias hb
    simp only [hb, if_true, elemAt_eq_ok hb1, Layer.biasData, hb1]
    rfl
  · simp only [hb]
    rfl

theorem length_forwardSample [CommRing R] (L : Layer R) (bottom_data weight top_data : List R)
    (n : Nat) : (forwardSample L bottom_data weight top_data n).length = top_data.length := by
  unfold forwardSample forward_cpu_bias forward_cpu_gemm
  split <;> simp [length_writeSlice]

theorem rd_forwardSample [CommRing R] (L : Layer R) (bottom_data weight top_data : List R)
    (n j : Nat) (hT : L.top_dim_ = L.geom.C * L.geom.OH * L.geom.OW) :
    rd (forwardSample L bottom_data weight top_data n) j =
      if n * L.top_dim_ ≤ j ∧ j < n * L.top_dim_ + L.top_dim_ ∧ j < top_data.length then
        forwardValue L bottom_data weight n (j - n * L.top_dim_)
      else rd top_data j := by
  unfold forwardSample forwardValue
  by_cases hb : L.bias_term_ = true
  · simp only [hb, if_true]
    unfold forward_cpu_bias
    simp only
    rw [rd_writeSlice, ← hT]
    unfold forward_cpu_gemm
    simp only
    rw [length_writeSlice]
    by_cases hj : n * L.top_dim_ ≤ j ∧ j < n * L.top_dim_ + L.top_dim_ ∧ j < top_data.length
    · rw [if_pos hj, if_pos hj, rd_writeSlice, ← hT,
        if_pos ⟨by omega, by omega, by omega⟩]
      have : n * L.top_dim_ + (j - n * L.top_dim_) - n * L.top_dim_ = j - n * L.top_dim_ := by
        omega
      rw [this]
    · rw [if_neg hj, if_neg hj, rd_writeSlice, ← hT, if_neg hj]
  · have hb' : L.bias_term_ = false := by simpa using hb
    simp only [hb', Bool.false_eq_true, if_false]
    unfold forward_cpu_gemm
    simp only
    rw [rd_writeSlice, ← hT]
    by_cases hj : n * L.top_dim_ ≤ j ∧ j < n * L.top_dim_ + L.top_dim_ ∧ j < top_data.length
    · rw [if_pos hj, if_pos hj]
      simp
    · rw [if_neg hj, if_neg hj]

theorem length_foldl_forwardSample [CommRing R] (L : Layer R)
    (bottom_data weight top_data : List R) (l : List Nat) :
    (l.foldl (forwardSample L bottom_data weight) top_data).length = top_data.length := by
  induction l generalizing top_data with
  | nil => rfl
  | cons n l ih => rw [List.foldl_cons, ih, length_forwardSample]

theorem rd_foldl_forwardSample [CommRing R] (L : Layer R) (bottom_data weight top_data : List R)
    (hT : L.top_dim_ = L.geom.C * L.geom.OH * L.geom.OW) (m j : Nat) :
    rd ((List.range m).foldl (forwardSample L bottom_data weight) top_data) j =
      if j < m * L.top_dim_ ∧ j < top_data.length then
        forwardValue L bottom_data weight (j / L.top_dim_) (j % L.top_dim_)
      else rd top_data j := by
  induction m with
  | zero => simp
  | succ m ih =>
    rw [List.range_succ, List.foldl_append, List.foldl_cons, List.foldl_nil,
      rd_forwardSample L _ _ _ _ _ hT, length_foldl_forwardSample, ih]
    by_cases hs : m * L.top_dim_ ≤ j ∧ j < m * L.top_dim_ + L.top_dim_ ∧ j < top_data.length
    · have hpos : 0 < L.top_dim_ := by omega
      have hdiv : j / L.top_dim_ = m := by
        apply Nat.div_eq_of_lt_le
        · exact hs.1
        · rw [Nat.succ_mul]; exact hs.2.1
      have hmod : j % L.top_dim_ = j - m * L.top_dim_ := by
        have := Nat.div_add_mod j L.top_dim_
        rw [hdiv] at this
        have h2 : L.top_dim_ * m = m * L.top_dim_ := Nat.mul_comm _ _
        omega
      rw [if_pos hs, if_pos ⟨by rw [Nat.succ_mul]; omega, hs.2.2⟩, hdiv, hmod]
    · rw [if_neg hs]
      by_cases h1 : j < m * L.top_dim_ ∧ j < top_data.length
      · rw [if_pos h1, if_pos ⟨by rw [Nat.succ_mul]; omega, h1.2⟩]
      · rw [if_neg h1, if_neg]
        rw [Nat.succ_mul]
        omega

theorem Forward_cpu_pair_ok [CommRing R] (L : Layer R) (weight : List R)
    (bottom top : List (Blob R)) (i : Nat) {b t : Blob R}
    (hbias : L.bias_term_ = true → ∃ b1, L.blobs_[1]? = some b1)
    (hb : bottom[i]? = some b) (ht : top[i]? = some t) :
    Forward_cpu_pair L weight bottom top i = .ok (top.set i
      { t with data_ := (List.range L.num_).foldl (forwardSample L b.data_ weight) t.data_ }) := by
  unfold Forward_cpu_pair
  rw [elemAt_eq_ok hb, elemAt_eq_ok ht]
  simp only [bind, Except.bind]
  rw [foldlM_eq_ok_foldl _ (forwardSample L b.data_ weight) _
    (fun td n _ => Forward_cpu_sample_ok L b.data_ weight td n hbias)]
  rfl

theorem Forward_cpu_loop [CommRing R] (L : Layer R) (weight : List R)
    (bottom top : List (Blob R))
    (hbias : L.bias_term_ = true → ∃ b1, L.blobs_[1]? = some b1)
    (hlen : bottom.length ≤ top.length) (m : Nat) (hm : m ≤ bottom.length) :
    ∃ top', (List.range m).foldlM (Forward_cpu_pair L weight bottom) top = .ok top' ∧
      top'.length = top.length ∧
      (∀ i, m ≤ i → top'[i]? = top[i]?) ∧
      (∀ i, i < m → ∀ b t, bottom[i]? = some b → top[i]? = some t →
        top'[i]? = some { t with
          data_ := (List.range L.num_).foldl (forwardSample L b.data_ weight) t.data_ }) := by
  induction m with
  | zero => exact ⟨top, rfl, rfl, fun _ _ => rfl, fun i hi => absurd hi (Nat.not_lt_zero i)⟩
  | succ m ih =>
    obtain ⟨top1, h1, hl1, hge1, hlt1⟩ := ih (by omega)
    have hmb : m < bottom.length := by omega
    have hmt : m < top.length := by omega
    have hb : bottom[m]? = some bottom[m] := List.getElem?_eq_getElem hmb
    have ht : top[m]? = some top[m] := List.getElem?_eq_getElem hmt
    have ht1 : top1[m]? = some top[m] := by rw [hge1 m (le_refl m), ht]
    refine ⟨top1.set m { top[m] with
      data_ := (List.range L.num_).foldl (forwardSample L bottom[m].data_ weight) top[m].data_ },
      ?_, ?_, ?_, ?_⟩
    · rw [List.range_succ, List.foldlM_append, h1]
      simp only [bind, Except.bind, List.foldlM_cons, List.foldlM_nil]
      rw [Forward_cpu_pair_ok L weight bottom top1 m hbias hb ht1]
      rfl
    · rw [List.length_set, hl1]
    · intro i hi
      rw [List.getElem?_set, if_neg (by omega), hge1 i (by omega)]
    · intro i hi b t hbi hti
      rw [List.getElem?_set]
      by_cases him : m = i
      · subst him
        rw [if_pos rfl, if_pos (by omega)]
        rw [hb] at hbi
        rw [ht] at hti
        injection hbi with hbi
        injection hti with hti
        rw [hbi, hti]
      · rw [if_neg him]
        exact hlt1 i (by omega) b t hbi hti

theorem paddedAt_eq_padded_at [Zero R] (L : Layer R) (b : Blob R) (N C H W : Nat) (n c : Nat)
    (ih iw : Int) (hshape : b.shape_ = [(N : Int), C, H, W])
    (hin : L.input_shape = [(C : Int), H, W]) (hbd : L.bottom_dim_ = C * H * W) :
    paddedAt L.geom b.data_ (n * L.bottom_dim_) c ih iw = b.padded_at n c ih iw := by
  have hgH : L.geom.H = H := by simp [Layer.geom, hin]
  have hgW : L.geom.W = W := by simp [Layer.geom, hin]
  have hbh : b.height = H := by simp [Blob.height, Blob.LegacyShape, hshape]
  have hbw : b.width = W := by simp [Blob.width, Blob.LegacyShape, hshape]
  have hbc : b.channels = C := by simp [Blob.channels, Blob.LegacyShape, hshape]
  unfold paddedAt Blob.padded_at Blob.data_at
  rw [hgH, hgW, hbh, hbw, hbc, hbd]
  simp only [Int.toNat_ofNat]
  congr 2
  ring

/-! ## The backward pass -/

theorem length_weight_cpu_gemm [CommRing R] (L : Layer R) (input : List R) (in_off : Nat)
    (top_diff : List R) (td_off : Nat) (wd : List R) :
    (weight_cpu_gemm L input in_off top_diff td_off wd).length = wd.length := by
  simp [weight_cpu_gemm, length_writeSlice]

theorem rd_weight_cpu_gemm [CommRing R] (L : Layer R) (input : List R) (in_off : Nat)
    (top_diff : List R) (td_off : Nat) (wd : List R) (k : Nat) :
    rd (weight_cpu_gemm L input in_off top_diff td_off wd) k
      = rd wd k + weightDelta L input in_off top_diff td_off wd.length k := by
  unfold weight_cpu_gemm weightDelta
  simp only
  rw [rd_writeSlice]
  by_cases h : k < L.geom.C * L.geom.KH * L.geom.KW ∧ k < wd.length
  · rw [if_pos ⟨Nat.zero_le k, by omega, h.2⟩, if_pos h]
    simp only [Nat.sub_zero]
  · rw [if_neg (fun h' => h ⟨by omega, h'.2.2⟩), if_neg h, add_zero]

theorem length_backward_cpu_bias [CommRing R] (L : Layer R) (bd : List R) (top_diff : List R)
    (td_off : Nat) : (backward_cpu_bias L bd top_diff td_off).length = bd.length := by
  simp [backward_cpu_bias, length_writeSlice]

theorem rd_backward_cpu_bias [CommRing R] (L : Layer R) (bd : List R) (top_diff : List R)
    (td_off c : Nat) :
    rd (backward_cpu_bias L bd top_diff td_off) c
      = rd bd c + biasDelta L top_diff td_off bd.length c := by
  unfold backward_cpu_bias biasDelta
  simp only
  rw [rd_writeSlice]
  by_cases h : c < L.geom.C ∧ c < bd.length
  · rw [if_pos ⟨Nat.zero_le c, by omega, h.2⟩, if_pos h]
    simp only [Nat.sub_zero]
  · rw [if_neg (fun h' => h ⟨by omega, h'.2.2⟩), if_neg h, add_zero]

theorem length_backwardBiasDiff_aux [CommRing R] (L : Layer R) (top_diff : List R)
    (l : List Nat) (bd : List R) :
    (l.foldl (fun bias_diff n => backward_cpu_bias L bias_diff top_diff (n * L.top_dim_))
      bd).length = bd.length := by
  induction l generalizing bd with
  | nil => rfl
  | cons n l ih => rw [List.foldl_cons, ih, length_backward_cpu_bias]

theorem length_backwardBiasDiff [CommRing R] (L : Layer R) (top_diff bd : List R) :
    (backwardBiasDiff L top_diff bd).length = bd.length :=
  length_backwardBiasDiff_aux L top_diff _ bd

theorem rd_backwardBiasDiff_aux [CommRing R] (L : Layer R) (top_diff bd : List R)
    (m c : Nat) :
    rd ((List.range m).foldl
        (fun bias_diff n => backward_cpu_bias L bias_diff top_diff (n * L.top_dim_)) bd) c
      = rd bd c + ∑ n in Finset.range m, biasDelta L top_diff (n * L.top_dim_) bd.length c := by
  induction m with
  | zero => simp
  | succ m ih =>
    rw [List.range_succ, List.foldl_append, List.foldl_cons, List.foldl_nil,
      rd_backward_cpu_bias, ih, length_backwardBiasDiff_aux, Finset.sum_range_succ, add_assoc]

theorem rd_backwardBiasDiff [CommRing R] (L : Layer R) (top_diff bd : List R) (c : Nat) :
    rd (backwardBiasDiff L top_diff bd) c
      = rd bd c + ∑ n in Finset.range L.num_,
          biasDelta L top_diff (n * L.top_dim_) bd.length c :=
  rd_backwardBiasDiff_aux L top_diff bd L.num_ c

theorem Backward_cpu_sample_ok [CommRing R] (L : Layer R) (weight bottom_data top_diff : List R)
    (propagate_down : List Bool) (i : Nat) (st : List R × List R) (n : Nat) {p0 pd : Bool}
    (hp0 : L.param_propagate_down_[0]? = some p0) (hpd : propagate_down[i]? = some pd) :
    Backward_cpu_sample L weight bottom_data top_diff propagate_down i st n
      = .ok (backwardSample L weight bottom_data top_diff p0 pd st n) := by
  unfold Backward_cpu_sample backwardSample
  rw [elemAt_eq_ok hp0, elemAt_eq_ok hpd]
  rfl

theorem foldl_backwardSample_fst_length [CommRing R] (L : Layer R)
    (weight bottom_data top_diff : List R) (p0 pd : Bool) (l : List Nat) (st : List R × List R) :
    (l.foldl (backwardSample L weight bottom_data top_diff p0 pd) st).1.length
      = st.1.length := by
  induction l generalizing st with
  | nil => rfl
  | cons n l ih =>
    rw [List.foldl_cons, ih]
    unfold backwardSample
    cases p0
    · simp
    · simp [length_weight_cpu_gemm]

theorem foldl_backwardSample_fst [CommRing R] (L : Layer R)
    (weight bottom_data top_diff : List R) (p0 pd : Bool) (st : List R × List R) (m k : Nat) :
    rd ((List.range m).foldl (backwardSample L weight bottom_data top_diff p0 pd) st).1 k
      = rd st.1 k + if p0 then ∑ n in Finset.range m,
          weightDelta L bottom_data (n * L.bottom_dim_) top_diff (n * L.top_dim_) st.1.length k
        else 0 := by
  induction m with
  | zero => simp
  | succ m ih =>
    rw [List.range_succ, List.foldl_append, List.foldl_cons, List.foldl_nil]
    cases p0
    · simp only [backwardSample, Bool.false_eq_true, if_false, add_zero] at ih ⊢
      exact ih
    · simp only [backwardSample, if_true] at ih ⊢
      rw [rd_weight_cpu_gemm, ih, Finset.sum_range_succ, add_assoc]
      have := foldl_backwardSample_fst_length L weight bottom_data top_diff true pd
        (List.range m) st
      simp only [backwardSample, if_true] at this
      rw [this]

theorem foldl_backwardSample_snd_of_false [CommRing R] (L : Layer R)
    (weight bottom_data top_diff : List R) (p0 : Bool) (l : List Nat) (st : List R × List R) :
    (l.foldl (backwardSample L weight bottom_data top_diff p0 false) st).2 = st.2 := by
  induction l generalizing st with
  | nil => rfl
  | cons n l ih =>
    rw [List.foldl_cons, ih]
    simp [backwardSample]

theorem foldl_backwardSample_fst_of_false [CommRing R] (L : Layer R)
    (weight bottom_data top_diff : List R) (pd : Bool) (l : List Nat) (st : List R × List R) :
    (l.foldl (backwardSample L weight bottom_data top_diff false pd) st).1 = st.1 := by
  induction l generalizing st with
  | nil => rfl
  | cons n l ih =>
    rw [List.foldl_cons, ih]
    simp [backwardSample]

theorem Backward_cpu_bias_part_ok [CommRing R] (L : Layer R) (top_diff : List R)
    (blobs : List (Blob R))
    (hbias : L.bias_term_ = true → ∃ p1, L.param_propagate_down_[1]? = some p1 ∧
      (p1 = true → ∃ b1, blobs[1]? = some b1)) :
    Backward_cpu_bias_part L top_diff blobs = .ok (backwardBias L top_diff blobs) := by
  unfold Backward_cpu_bias_part backwardBias backwardBiasDiff
  by_cases hb : L.bias_term_ = true
  · obtain ⟨p1, hp1, hb1⟩ := hbias hb
    have hget : L.param_propagate_down_.getD 1 false = p1 := by
      simp [List.getD_eq_getElem?_getD, hp1]
    rw [hget, elemAt_eq_ok hp1]
    cases p1
    · simp only [hb, if_true, bind, Except.bind, Bool.and_false, Bool.false_eq_true, if_false]
      cases blobs[1]? <;> rfl
    · obtain ⟨b1, hb1'⟩ := hb1 rfl
      rw [elemAt_eq_ok hb1', hb1']
      simp only [hb, if_true, bind, Except.bind, Bool.and_true]
      rfl
  · have hb' : L.bias_term_ = false := by simpa using hb
    simp only [hb', Bool.false_eq_true, if_false, Bool.false_and]
    cases blobs[1]? <;> rfl

theorem length_backwardBias [CommRing R] (L : Layer R) (top_diff : List R)
    (blobs : List (Blob R)) : (backwardBias L top_diff blobs).length = blobs.length := by
  unfold backwardBias
  split
  · split
    · rw [List.length_set]
    · rfl
  · rfl

theorem getElem?_backwardBias_of_ne [CommRing R] (L : Layer R) (top_diff : List R)
    (blobs : List (Blob R)) {k : Nat} (hk : k ≠ 1) :
    (backwardBias L top_diff blobs)[k]? = blobs[k]? := by
  unfold backwardBias
  split
  · split
    · rw [List.getElem?_set, if_neg (Ne.symm hk)]
    · rfl
  · rfl

theorem getElem?_backwardBias_one [CommRing R] (L : Layer R) (top_diff : List R)
    (blobs : List (Blob R)) :
    (backwardBias L top_diff blobs)[1]? =
      blobs[1]?.map fun b1 =>
        if L.bias_term_ && L.param_propagate_down_.getD 1 false then
          { b1 with diff_ := backwardBiasDiff L top_diff b1.diff_ }
        else b1 := by
  unfold backwardBias
  cases h : blobs[1]? with
  | none => simp [h]
  | some b1 =>
    simp only [Option.map_some']
    split
    · rw [List.getElem?_set, if_pos rfl, if_pos]
      by_contra hcon
      rw [List.getElem?_eq_none (Nat.le_of_not_lt hcon)] at h
      cases h
    · exact h

theorem Backward_cpu_pair_ok [CommRing R] (L : Layer R) (top : List (Blob R))
    (propagate_down : List Bool) (blobs bot : List (Blob R)) (i : Nat) {t b w : Blob R}
    {p0 pd : Bool}
    (ht : top[i]? = some t) (hb : bot[i]? = some b) (hw : blobs[0]? = some w)
    (hp0 : L.param_propagate_down_[0]? = some p0) (hpd : propagate_down[i]? = some pd)
    (hbias : L.bias_term_ = true → ∃ p1, L.param_propagate_down_[1]? = some p1 ∧
      (p1 = true → ∃ b1, blobs[1]? = some b1)) :
    Backward_cpu_pair L top propagate_down (blobs, bot) i = .ok
      (if p0 || pd then
        ((backwardBias L t.diff_ blobs).set 0
            { w with diff_ := ((List.range L.num_).foldl
                (backwardSample L w.data_ b.data_ t.diff_ p0 pd) (w.diff_, b.diff_)).1 },
          bot.set i
            { b with diff_ := ((List.range L.num_).foldl
                (backwardSample L w.data_ b.data_ t.diff_ p0 pd) (w.diff_, b.diff_)).2 })
      else (backwardBias L t.diff_ blobs, bot)) := by
  have hw' : (backwardBias L t.diff_ blobs)[0]? = some w := by
    rw [getElem?_backwardBias_of_ne L t.diff_ blobs (by decide), hw]
  have hfold : ∀ st : List R × List R,
      List.foldlM (Backward_cpu_sample L w.data_ b.data_ t.diff_ propagate_down i) st
          (List.range L.num_)
        = .ok ((List.range L.num_).foldl (backwardSample L w.data_ b.data_ t.diff_ p0 pd) st) :=
    fun st => foldlM_eq_ok_foldl _ (backwardSample L w.data_ b.data_ t.diff_ p0 pd) _
      (fun st n _ => Backward_cpu_sample_ok L w.data_ b.data_ t.diff_ propagate_down i st n
        hp0 hpd) st
  unfold Backward_cpu_pair
  simp only
  rw [elemAt_eq_ok ht, elemAt_eq_ok hb]
  simp only [bind, Except.bind]
  rw [Backward_cpu_bias_part_ok L t.diff_ blobs hbias, elemAt_eq_ok hp0]
  simp only [bind, Except.bind, pure, Except.pure]
  cases p0
  · simp only [Bool.false_eq_true, if_false, Bool.false_or]
    rw [elemAt_eq_ok hpd]
    simp only
    cases pd
    · simp only [Bool.false_eq_true, if_false]
    · simp only [if_true]
      rw [elemAt_eq_ok hw']
      simp only
      rw [hfold]
  · simp only [if_true, Bool.true_or]
    rw [elemAt_eq_ok hw']
    simp only
    rw [hfold]

theorem getElem?_set_self_of_some {α : Type} {xs : List α} {i : Nat} {x : α} (y : α)
    (h : xs[i]? = some x) : (xs.set i y)[i]? = some y := by
  rw [List.getElem?_set, if_pos rfl, if_pos]
  by_contra hcon
  rw [List.getElem?_eq_none (Nat.le_of_not_lt hcon)] at h
  cases h

theorem dataOf_set_diff (bs : List (Blob R)) (i j : Nat) {b : Blob R} (d : List R)
    (hb : bs[i]? = some b) : dataOf (bs.set i { b with diff_ := d }) j = dataOf bs j := by
  unfold dataOf
  by_cases hij : i = j
  · subst hij
    rw [getElem?_set_self_of_some _ hb, hb]
  · rw [List.getElem?_set, if_neg hij]

theorem dataOf_eq_of_getElem? {bs : List (Blob R)} {i : Nat} {b : Blob R}
    (hb : bs[i]? = some b) : dataOf bs i = b.data_ := by
  simp [dataOf, hb]

theorem diffOf_eq_of_getElem? {bs : List (Blob R)} {i : Nat} {b : Blob R}
    (hb : bs[i]? = some b) : diffOf bs i = b.diff_ := by
  simp [diffOf, hb]

/-- The loop over the tensor pairs in `Backward_cpu` returns when every vector it indexes is
long enough, and accumulates into the weight gradient the contribution of every pair and
sample it has gone through. -/
theorem Backward_cpu_loop [CommRing R] (L : Layer R) (top : List (Blob R))
    (propagate_down : List Bool) (bottom : List (Blob R)) {w : Blob R} {p0 : Bool}
    (hw : L.blobs_[0]? = some w) (hp0 : L.param_propagate_down_[0]? = some p0)
    (hbias : L.bias_term_ = true → ∃ p1, L.param_propagate_down_[1]? = some p1 ∧
      (p1 = true → 1 < L.blobs_.length))
    (hlenb : top.length ≤ bottom.length) (hlenp : top.length ≤ propagate_down.length)
    (m : Nat) (hm : m ≤ top.length) :
    ∃ blobs' bot', (List.range m).foldlM (Backward_cpu_pair L top propagate_down)
        (L.blobs_, bottom) = .ok (blobs', bot') ∧
      blobs'.length = L.blobs_.length ∧ bot'.length = bottom.length ∧
      (∀ i, dataOf bot' i = dataOf bottom i) ∧
      ∃ w', blobs'[0]? = some w' ∧ w'.data_ = w.data_ ∧ w'.shape_ = w.shape_ ∧
        w'.diff_.length = w.diff_.length ∧
        ∀ k, rd w'.diff_ k = rd w.diff_ k +
          if p0 then ∑ i in Finset.range m, ∑ n in Finset.range L.num_,
            weightDelta L (dataOf bottom i) (n * L.bottom_dim_) (diffOf top i)
              (n * L.top_dim_) w.diff_.length k
          else 0 := by
  induction m with
  | zero =>
    refine ⟨L.blobs_, bottom, rfl, rfl, rfl, fun _ => rfl, w, hw, rfl, rfl, rfl, ?_⟩
    intro k
    simp
  | succ m ih =>
    obtain ⟨blobs1, bot1, hrun, hl1, hlb1, hdata1, w1, hw1, hwd1, hws1, hwl1, hrd1⟩ :=
      ih (by omega)
    have hmt : m < top.length := by omega
    have ht : top[m]? = some top[m] := List.getElem?_eq_getElem hmt
    have hmb : m < bot1.length := by omega
    have hb : bot1[m]? = some bot1[m] := List.getElem?_eq_getElem hmb
    have hmp : m < propagate_down.length := by omega
    have hpd : propagate_down[m]? = some propagate_down[m] := List.getElem?_eq_getElem hmp
    have hbias1 : L.bias_term_ = true → ∃ p1, L.param_propagate_down_[1]? = some p1 ∧
        (p1 = true → ∃ b1, blobs1[1]? = some b1) := by
      intro h
      obtain ⟨p1, hp1, hlen⟩ := hbias h
      refine ⟨p1, hp1, fun hp => ?_⟩
      have h1 : 1 < blobs1.length := by rw [hl1]; exact hlen hp
      exact ⟨blobs1[1], List.getElem?_eq_getElem h1⟩
    have hstep := Backward_cpu_pair_ok L top propagate_down blobs1 bot1 m ht hb hw1 hp0 hpd
      hbias1
    have hbd : bot1[m].data_ = dataOf bottom m := by
      rw [← hdata1 m, dataOf_eq_of_getElem? hb]
    have htd : top[m].diff_ = diffOf top m := (diffOf_eq_of_getElem? ht).symm
    have hrunS : (List.range (m + 1)).foldlM (Backward_cpu_pair L top propagate_down)
        (L.blobs_, bottom) = Backward_cpu_pair L top propagate_down (blobs1, bot1) m := by
      rw [List.range_succ, List.foldlM_append, hrun]
      simp only [bind, Except.bind, List.foldlM_cons, List.foldlM_nil]
      cases Backward_cpu_pair L top propagate_down (blobs1, bot1) m <;> rfl
    rw [hrunS, hstep]
    by_cases henter : (p0 || propagate_down[m]) = true
    · rw [if_pos henter]
      refine ⟨_, _, rfl, ?_, ?_, ?_, { w1 with
        diff_ := ((List.range L.num_).foldl (backwardSample L w1.data_ bot1[m].data_ top[m].diff_ p0 propagate_down[m]) (w1.diff_, bot1[m].diff_)).1 },
        ?_, ?_, ?_, ?_, ?_⟩
      · rw [List.length_set, length_backwardBias, hl1]
      · rw [List.length_set, hlb1]
      · intro i
        rw [dataOf_set_diff bot1 m i _ hb, hdata1]
      · exact getElem?_set_self_of_some _
          (by rw [getElem?_backwardBias_of_ne L _ blobs1 (by decide)]; exact hw1)
      · exact hwd1
      · exact hws1
      · simp only
        rw [foldl_backwardSample_fst_length, hwl1]
      · intro k
        simp only
        rw [foldl_backwardSample_fst, hrd1 k, hwl1, hbd, htd]
        cases p0
        · simp
        · simp only [if_true]
          rw [Finset.sum_range_succ, add_assoc]
    · rw [if_neg henter]
      have hp0f : p0 = false := by
        cases p0
        · rfl
        · simp at henter
      refine ⟨_, _, rfl, ?_, hlb1, hdata1, w1, ?_, hwd1, hws1, hwl1, ?_⟩
      · rw [length_backwardBias, hl1]
      · rw [getElem?_backwardBias_of_ne L _ blobs1 (by decide)]; exact hw1
      · intro k
        rw [hrd1 k, hp0f]
        simp

/-- The call `Backward_cpu` returns when every vector it indexes is long enough; the layer it leaves
differs from the one it got in `blobs_` only, and the weight gradient has grown by
`weightGrad`. -/
theorem Backward_cpu_ok [CommRing R] (L : Layer R) (top : List (Blob R))
    (propagate_down : List Bool) (bottom : List (Blob R)) {w : Blob R} {p0 : Bool}
    (hw : L.blobs_[0]? = some w) (hp0 : L.param_propagate_down_[0]? = some p0)
    (hbias : L.bias_term_ = true → ∃ p1, L.param_propagate_down_[1]? = some p1 ∧
      (p1 = true → 1 < L.blobs_.length))
    (hlenb : top.length ≤ bottom.length) (hlenp : top.length ≤ propagate_down.length) :
    ∃ blobs' bot', Backward_cpu L top propagate_down bottom
        = .ok ({ L with blobs_ := blobs' }, bot') ∧
      blobs'.length = L.blobs_.length ∧ bot'.length = bottom.length ∧
      (∀ i, dataOf bot' i = dataOf bottom i) ∧
      ∃ w', blobs'[0]? = some w' ∧ w'.data_ = w.data_ ∧ w'.shape_ = w.shape_ ∧
        w'.diff_.length = w.diff_.length ∧
        ∀ k, rd w'.diff_ k = rd w.diff_ k +
          if p0 then weightGrad L top bottom w.diff_.length k else 0 := by
  obtain ⟨blobs', bot', hrun, h1, h2, h3, h4⟩ :=
    Backward_cpu_loop L top propagate_down bottom hw hp0 hbias hlenb hlenp top.length
      (le_refl _)
  refine ⟨blobs', bot', ?_, h1, h2, h3, h4⟩
  unfold Backward_cpu
  rw [elemAt_eq_ok hw]
  simp only [bind, Except.bind]
  rw [hrun]
  rfl

/-! ## Claims on `LayerSetUp`, `Reshape` and `compute_output_shape` -/

/-- C1 (as stated, refuted): with kernel 3, stride 3, dilation 1, pad 0 and input size 1 on
both axes, all inside the claimed domain, `compute_output_shape` (whose operands are all
declared `int`) appends 1 for each axis, while the formula with the mathematical floor,
⌊(1 + 0 − 3) / 3⌋ + 1, is 0. -/
theorem output_dim_not_floor :
    InDomain 1 0 1 3 3 ∧
    (∃ L', compute_output_shape tightLayer = .ok L' ∧ L'.output_shape_ = [1, 1]) ∧
    specOutputDim 1 0 1 3 3 = 0 := by
  refine ⟨by decide, ⟨_, rfl, by decide⟩, ?_⟩
  unfold specOutputDim
  norm_num

/-- C1 (amended): for kernel >= 1, stride >= 1, dilation >= 1, pad >= 0 and input_dim >= 1
with dilation*(kernel-1)+1 <= input_dim + 2*pad, the height and width `Reshape` gives the
output tensor, and the value `compute_output_shape` appends for each spatial axis, equal
floor((input_dim + 2*pad - (dilation*(kernel-1)+1)) / stride) + 1, with the mathematical
floor of the exact quotient. -/
theorem output_dim_is_floor_when_window_fits [Zero R] [One R] (L : Layer R)
    (bottom top : List (Blob R)) (b0 t0 : Blob R) (N C H W : ℤ)
    (hb : bottom[0]? = some b0) (hshape : b0.shape_ = [N, C, H, W]) (ht : top[0]? = some t0)
    (hH : InDomain H L.pad_h_ L.dilation_h_ L.kernel_h_ L.stride_h_)
    (hW : InDomain W L.pad_w_ L.dilation_w_ L.kernel_w_ L.stride_w_)
    (hfitH : L.dilation_h_ * (L.kernel_h_ - 1) + 1 ≤ H + 2 * L.pad_h_)
    (hfitW : L.dilation_w_ * (L.kernel_w_ - 1) + 1 ≤ W + 2 * L.pad_w_)
    (hlen : L.num_spatial_axes_.toNat + 1 ≤ L.input_shape.length ∧
      L.num_spatial_axes_.toNat ≤ L.kernel_shape_.length ∧
      L.num_spatial_axes_.toNat ≤ L.stride_.length ∧
      L.num_spatial_axes_.toNat ≤ L.pad_.length ∧
      L.num_spatial_axes_.toNat ≤ L.dilation_.length)
    (hax : ∀ i, i < L.num_spatial_axes_.toNat →
      InDomain (L.input_shape.getD (i + 1) 0) (L.pad_.getD i 0) (L.dilation_.getD i 0)
        (L.kernel_shape_.getD i 0) (L.stride_.getD i 0) ∧
      L.dilation_.getD i 0 * (L.kernel_shape_.getD i 0 - 1) + 1
        ≤ L.input_shape.getD (i + 1) 0 + 2 * L.pad_.getD i 0) :
    (∃ L' top' t0', Reshape L bottom top = .ok (L', top') ∧ top'[0]? = some t0' ∧
      t0'.height = specOutputDim H L.pad_h_ L.dilation_h_ L.kernel_h_ L.stride_h_ ∧
      t0'.width = specOutputDim W L.pad_w_ L.dilation_w_ L.kernel_w_ L.stride_w_) ∧
    (∃ L', compute_output_shape L = .ok L' ∧
      L'.output_shape_.length = L.num_spatial_axes_.toNat ∧
      ∀ i, i < L.num_spatial_axes_.toNat →
        L'.output_shape_[i]? = some
          (specOutputDim (L.input_shape.getD (i + 1) 0) (L.pad_.getD i 0)
            (L.dilation_.getD i 0) (L.kernel_shape_.getD i 0) (L.stride_.getD i 0))) := by
  refine ⟨?_, ?_⟩
  · obtain ⟨L', hL'⟩ := Reshape_ok L bottom top hb ht
      (by have := hH.2.1; omega) (by have := hW.2.1; omega)
    refine ⟨L', _, _, hL', getElem?_set_zero_of_some ht, ?_, ?_⟩
    · simp only [Blob.height, Blob.width, Blob.LegacyShape, Blob.shape_Reshape, hshape]
      exact tdiv_add_one_eq_specOutputDim _ _ _ _ _ hH.2.1 hfitH
    · simp only [Blob.height, Blob.width, Blob.LegacyShape, Blob.shape_Reshape, hshape]
      exact tdiv_add_one_eq_specOutputDim _ _ _ _ _ hW.2.1 hfitW
  · obtain ⟨h1, h2, h3, h4, h5⟩ := hlen
    obtain ⟨L', hcos, hout⟩ := compute_output_shape_ok L h1 h2 h3 h4 h5
      (fun i hi => by have := (hax i hi).1.2.1; omega)
    refine ⟨L', hcos, ?_, ?_⟩
    · simp [hout]
    · intro i hi
      rw [hout, List.getElem?_map, List.getElem?_range hi]
      simp only [Option.map_some']
      rw [tdiv_add_one_eq_specOutputDim _ _ _ _ _ (hax i hi).1.2.1 (hax i hi).2]

/-- C1 (amended), at the 3x3 kernel with stride 1, pad 1, dilation 1 on a 1x1x4x4 input
(extent 3, padded size 6): both functions give 4 = floor(3 / 1) + 1 on each axis. -/
theorem output_dim_is_floor_when_window_fits_witness :
    ((∃ L' top' t0', Reshape boxLayer [onesInput] [emptyBlob] = .ok (L', top') ∧
      top'[0]? = some t0' ∧
      t0'.height = specOutputDim 4 1 1 3 1 ∧ t0'.width = specOutputDim 4 1 1 3 1) ∧
    (∃ L', compute_output_shape boxLayer = .ok L' ∧
      L'.output_shape_.length = 2 ∧
      ∀ i, i < 2 →
        L'.output_shape_[i]? = some
          (specOutputDim (boxLayer.input_shape.getD (i + 1) 0) (boxLayer.pad_.getD i 0)
            (boxLayer.dilation_.getD i 0) (boxLayer.kernel_shape_.getD i 0)
            (boxLayer.stride_.getD i 0)))) ∧
    specOutputDim 4 1 1 3 1 = 4 :=
  ⟨output_dim_is_floor_when_window_fits boxLayer [onesInput] [emptyBlob] onesInput emptyBlob
    1 1 4 4 rfl rfl rfl (by decide) (by decide) (by decide) (by decide) (by decide)
    (by
      intro i hi
      have hi' : i < 2 := hi
      interval_cases i <;> decide),
    by unfold specOutputDim; norm_num⟩

/-- C2: `LayerSetUp` resolves each of kernel, stride and pad, independently, by the rule
"the explicit pair wins if both fields are present, whatever the list holds; else a list of
length 1 gives h = w = its value; else a list of length 2 gives h = list[0], w = list[1]". -/
theorem LayerSetUp_resolves_kernel_stride_pad [Zero R] (GetFiller : FillerParameter → Filler R)
    (L : Layer R) (W : FillerWorld) (bottom : List (Blob R)) (hb : bottom ≠ [])
    (hk : Resolvable L.conv_param.kernel_h L.conv_param.kernel_w L.conv_param.kernel_size)
    (hs : Resolvable L.conv_param.stride_h L.conv_param.stride_w L.conv_param.stride)
    (hp : Resolvable L.conv_param.pad_h L.conv_param.pad_w L.conv_param.pad) :
    ∃ L' W', LayerSetUp GetFiller L W bottom = .ok (L', W') ∧
      ResolvedAs L.conv_param.kernel_h L.conv_param.kernel_w L.conv_param.kernel_size
        L'.kernel_h_ L'.kernel_w_ ∧
      ResolvedAs L.conv_param.stride_h L.conv_param.stride_w L.conv_param.stride
        L'.stride_h_ L'.stride_w_ ∧
      ResolvedAs L.conv_param.pad_h L.conv_param.pad_w L.conv_param.pad
        L'.pad_h_ L'.pad_w_ := by
  obtain ⟨kernel, hk'⟩ := resolvePair_ok hk
  obtain ⟨stride, hs'⟩ := resolvePair_ok hs
  obtain ⟨pad, hp'⟩ := resolvePair_ok hp
  obtain ⟨dilation, hd'⟩ := resolveDilation_ok L.conv_param.dilation
  obtain ⟨b0, hb0⟩ := exists_head_of_ne_nil hb
  exact ⟨_, _, LayerSetUp_of_resolved GetFiller L W bottom hk' hs' hp' hd' hb0,
    resolvePair_resolvedAs hk', resolvePair_resolvedAs hs', resolvePair_resolvedAs hp'⟩

/-- C2, at a configuration with an explicit 5x3 kernel next to the kernel list [7], the
stride list [2] and the pad list [1, 0]. -/
theorem LayerSetUp_resolves_kernel_stride_pad_witness :
    ∃ L' W', LayerSetUp onesFiller (Layer.fresh mixedParam) ⟨0, []⟩ [onesInput] = .ok (L', W') ∧
      ResolvedAs (some 5) (some 3) [7] L'.kernel_h_ L'.kernel_w_ ∧
      ResolvedAs none none [2] L'.stride_h_ L'.stride_w_ ∧
      ResolvedAs none none [1, 0] L'.pad_h_ L'.pad_w_ :=
  LayerSetUp_resolves_kernel_stride_pad onesFiller (Layer.fresh mixedParam) ⟨0, []⟩ [onesInput]
    (by simp) (by decide) (by decide) (by decide)

/-- C3: `LayerSetUp` resolves dilation to (1, 1) for the empty list, (v, v) for the single
value v and (list[0], list[1]) for a list of length 2; any other layer with the same
dilation list, whatever its kernel, stride and pad configuration, resolves to the same
pair. -/
theorem LayerSetUp_resolves_dilation [Zero R] (GetFiller : FillerParameter → Filler R)
    (L : Layer R) (W : FillerWorld) (bottom : List (Blob R)) (hb : bottom ≠ [])
    (hk : Resolvable L.conv_param.kernel_h L.conv_param.kernel_w L.conv_param.kernel_size)
    (hs : Resolvable L.conv_param.stride_h L.conv_param.stride_w L.conv_param.stride)
    (hp : Resolvable L.conv_param.pad_h L.conv_param.pad_w L.conv_param.pad) :
    ∃ L' W', LayerSetUp GetFiller L W bottom = .ok (L', W') ∧
      DilationResolvedAs L.conv_param.dilation L'.dilation_h_ L'.dilation_w_ ∧
      ∀ (L2 : Layer R) (W2 : FillerWorld) (bottom2 : List (Blob R)) (L2' : Layer R)
        (W2' : FillerWorld),
        L2.conv_param.dilation = L.conv_param.dilation →
        LayerSetUp GetFiller L2 W2 bottom2 = .ok (L2', W2') →
        L2'.dilation_h_ = L'.dilation_h_ ∧ L2'.dilation_w_ = L'.dilation_w_ := by
  obtain ⟨kernel, hk'⟩ := resolvePair_ok hk
  obtain ⟨stride, hs'⟩ := resolvePair_ok hs
  obtain ⟨pad, hp'⟩ := resolvePair_ok hp
  obtain ⟨dilation, hd'⟩ := resolveDilation_ok L.conv_param.dilation
  obtain ⟨b0, hb0⟩ := exists_head_of_ne_nil hb
  refine ⟨_, _, LayerSetUp_of_resolved GetFiller L W bottom hk' hs' hp' hd' hb0,
    resolveDilation_resolvedAs hd', ?_⟩
  intro L2 W2 bottom2 L2' W2' hdil h2
  obtain ⟨k2, s2, p2, d2, b2, hk2, hs2, hp2, hd2, hb2⟩ := LayerSetUp_ok_inv GetFiller L2 W2 bottom2 h2
  rw [LayerSetUp_of_resolved GetFiller L2 W2 bottom2 hk2 hs2 hp2 hd2 hb2] at h2
  injection h2 with h2
  injection h2 with hL hW
  rw [hdil, hd'] at hd2
  injection hd2 with hd2
  subst hd2
  subst hL
  exact ⟨rfl, rfl⟩

/-- C3, at the dilation list [2] of `mixedParam`. -/
theorem LayerSetUp_resolves_dilation_witness :
    ∃ L' W', LayerSetUp onesFiller (Layer.fresh mixedParam) ⟨0, []⟩ [onesInput] = .ok (L', W') ∧
      DilationResolvedAs [2] L'.dilation_h_ L'.dilation_w_ ∧
      ∀ (L2 : Layer ℤ) (W2 : FillerWorld) (bottom2 : List (Blob ℤ)) (L2' : Layer ℤ)
        (W2' : FillerWorld),
        L2.conv_param.dilation = [2] →
        LayerSetUp onesFiller L2 W2 bottom2 = .ok (L2', W2') →
        L2'.dilation_h_ = L'.dilation_h_ ∧ L2'.dilation_w_ = L'.dilation_w_ :=
  LayerSetUp_resolves_dilation onesFiller (Layer.fresh mixedParam) ⟨0, []⟩ [onesInput]
    (by simp) (by decide) (by decide) (by decide)

/-- C4: for an input of shape (N, C, H, W), `Reshape` gives the output tensor a 4-D shape
(N, C, out_H, out_W) whose first two entries are the input's N and C, for every kernel, pad
and dilation and every non-zero stride. -/
theorem Reshape_preserves_batch_and_channels [Zero R] [One R] (L : Layer R)
    (bottom top : List (Blob R)) (b0 : Blob R) (N C H W : ℤ)
    (hb : bottom[0]? = some b0) (hshape : b0.shape_ = [N, C, H, W]) (ht : top ≠ [])
    (hsh : L.stride_h_ ≠ 0) (hsw : L.stride_w_ ≠ 0) :
    ∃ L' top' t0' out_H out_W, Reshape L bottom top = .ok (L', top') ∧
      top'[0]? = some t0' ∧ t0'.shape_ = [N, C, out_H, out_W] ∧
      t0'.num = N ∧ t0'.channels = C := by
  obtain ⟨t0, ht0⟩ := exists_head_of_ne_nil ht
  obtain ⟨L', hL'⟩ := Reshape_ok L bottom top hb ht0 hsh hsw
  refine ⟨L', _, _,
    (b0.height + 2 * L.pad_h_ - (L.dilation_h_ * (L.kernel_h_ - 1) + 1)).tdiv L.stride_h_ + 1,
    (b0.width + 2 * L.pad_w_ - (L.dilation_w_ * (L.kernel_w_ - 1) + 1)).tdiv L.stride_w_ + 1,
    hL', getElem?_set_zero_of_some ht0, ?_, ?_, ?_⟩
  · rw [Blob.shape_Reshape]
    simp [Blob.num, Blob.channels, Blob.LegacyShape, hshape]
  · simp [Blob.num, Blob.channels, Blob.LegacyShape, hshape, Blob.shape_Reshape]
  · simp [Blob.num, Blob.channels, Blob.LegacyShape, hshape, Blob.shape_Reshape]

/-- C4, at the 1x1x4x4 input of the 3x3 box layer. -/
theorem Reshape_preserves_batch_and_channels_witness :
    ∃ L' top' t0' out_H out_W, Reshape boxLayer [onesInput] [emptyBlob] = .ok (L', top') ∧
      top'[0]? = some t0' ∧ t0'.shape_ = [1, 1, out_H, out_W] ∧
      t0'.num = 1 ∧ t0'.channels = 1 :=
  Reshape_preserves_batch_and_channels boxLayer [onesInput] [emptyBlob] onesInput 1 1 4 4
    rfl rfl (by simp) (by decide) (by decide)

/-- C6: `LayerSetUp` on a layer whose parameter storage is not empty returns with every
parameter tensor unchanged and with the filler state unchanged (no `Fill` call recorded, the
generator not advanced); and for every layer, a second `LayerSetUp` right after a first one
returns the very state the first one left. -/
theorem LayerSetUp_skips_populated_storage [Zero R] (GetFiller : FillerParameter → Filler R)
    (L : Layer R) (W : FillerWorld) (bottom : List (Blob R)) (hb : bottom ≠ [])
    (hk : Resolvable L.conv_param.kernel_h L.conv_param.kernel_w L.conv_param.kernel_size)
    (hs : Resolvable L.conv_param.stride_h L.conv_param.stride_w L.conv_param.stride)
    (hp : Resolvable L.conv_param.pad_h L.conv_param.pad_w L.conv_param.pad) :
    (L.blobs_ ≠ [] →
      ∃ L', LayerSetUp GetFiller L W bottom = .ok (L', W) ∧ L'.blobs_ = L.blobs_) ∧
    (∃ L1 W1, LayerSetUp GetFiller L W bottom = .ok (L1, W1) ∧
      LayerSetUp GetFiller L1 W1 bottom = .ok (L1, W1)) := by
  obtain ⟨kernel, hk'⟩ := resolvePair_ok hk
  obtain ⟨stride, hs'⟩ := resolvePair_ok hs
  obtain ⟨pad, hp'⟩ := resolvePair_ok hp
  obtain ⟨dilation, hd'⟩ := resolveDilation_ok L.conv_param.dilation
  obtain ⟨b0, hb0⟩ := exists_head_of_ne_nil hb
  have h1 := LayerSetUp_of_resolved GetFiller L W bottom hk' hs' hp' hd' hb0
  constructor
  · intro hne
    rw [initBlobs_of_ne_nil GetFiller _ _ _ W hne] at h1
    exact ⟨_, h1, rfl⟩
  · refine ⟨_, _, h1, ?_⟩
    exact LayerSetUp_fixed_of_resolved GetFiller L _ _ bottom hk' hs' hp' hd' hb0 rfl
      (initBlobs_ne_nil GetFiller _ _ _ _ _) (resizeTrue_length _ _) rfl rfl rfl rfl rfl rfl
      rfl rfl

/-- C6, at a layer restored with a weight and a bias already in place. -/
theorem LayerSetUp_skips_populated_storage_witness :
    (restoredLayer.blobs_ ≠ [] →
      ∃ L', LayerSetUp onesFiller restoredLayer ⟨0, []⟩ [onesInput] = .ok (L', ⟨0, []⟩) ∧
        L'.blobs_ = restoredLayer.blobs_) ∧
    (∃ L1 W1, LayerSetUp onesFiller restoredLayer ⟨0, []⟩ [onesInput] = .ok (L1, W1) ∧
      LayerSetUp onesFiller L1 W1 [onesInput] = .ok (L1, W1)) :=
  LayerSetUp_skips_populated_storage onesFiller restoredLayer ⟨0, []⟩ [onesInput]
    (by simp) (by decide) (by decide) (by decide)

/-- C7: `LayerSetUp` on a layer with empty parameter storage and an input with C channels
leaves exactly one parameter tensor without bias and exactly two with bias: the weight of
shape (C, 1, kernel_h, kernel_w) with the resolved kernel pair, then the bias of shape (C);
the `Fill` calls it records are exactly one on the weight and, with bias, one on the bias. -/
theorem LayerSetUp_creates_parameters [Zero R] (GetFiller : FillerParameter → Filler R)
    (L : Layer R) (W : FillerWorld) (bottom : List (Blob R)) (b0 : Blob R) (C : ℤ)
    (hb : bottom[0]? = some b0) (hC : b0.channels = C)
    (hk : Resolvable L.conv_param.kernel_h L.conv_param.kernel_w L.conv_param.kernel_size)
    (hs : Resolvable L.conv_param.stride_h L.conv_param.stride_w L.conv_param.stride)
    (hp : Resolvable L.conv_param.pad_h L.conv_param.pad_w L.conv_param.pad)
    (hempty : L.blobs_ = []) :
    ∃ L' W', LayerSetUp GetFiller L W bottom = .ok (L', W') ∧
      (L.conv_param.bias_term = false →
        ∃ w, L'.blobs_ = [w] ∧ w.shape_ = [C, 1, L'.kernel_h_, L'.kernel_w_] ∧
          W'.calls = W.calls ++ [⟨L.conv_param.weight_filler, 0, w.shape_⟩]) ∧
      (L.conv_param.bias_term = true →
        ∃ w b, L'.blobs_ = [w, b] ∧ w.shape_ = [C, 1, L'.kernel_h_, L'.kernel_w_] ∧
          b.shape_ = [C] ∧
          W'.calls = W.calls ++ [⟨L.conv_param.weight_filler, 0, w.shape_⟩,
            ⟨L.conv_param.bias_filler, 1, b.shape_⟩]) := by
  obtain ⟨kernel, hk'⟩ := resolvePair_ok hk
  obtain ⟨stride, hs'⟩ := resolvePair_ok hs
  obtain ⟨pad, hp'⟩ := resolvePair_ok hp
  obtain ⟨dilation, hd'⟩ := resolveDilation_ok L.conv_param.dilation
  refine ⟨_, _, LayerSetUp_of_resolved GetFiller L W bottom hk' hs' hp' hd' hb, ?_, ?_⟩
  · intro hbias
    refine ⟨(Fill GetFiller L.conv_param.weight_filler 0
      (Blob.ofShape [b0.channels, 1, kernel.1, kernel.2]) W).1, ?_, ?_, ?_⟩
    · simp [initBlobs, hempty, hbias]
    · simp [Fill, Blob.ofShape, hC]
    · simp [initBlobs, hempty, hbias, Fill, Blob.ofShape]
  · intro hbias
    refine ⟨(Fill GetFiller L.conv_param.weight_filler 0
      (Blob.ofShape [b0.channels, 1, kernel.1, kernel.2]) W).1,
      (Fill GetFiller L.conv_param.bias_filler 1 (Blob.ofShape [b0.channels])
        (Fill GetFiller L.conv_param.weight_filler 0
          (Blob.ofShape [b0.channels, 1, kernel.1, kernel.2]) W).2).1, ?_, ?_, ?_, ?_⟩
    · simp [initBlobs, hempty, hbias]
    · simp [Fill, Blob.ofShape, hC]
    · simp [Fill, Blob.ofShape, hC]
    · simp [initBlobs, hempty, hbias, Fill, Blob.ofShape]

/-- C7, at a fresh layer with bias on a one-channel input. -/
theorem LayerSetUp_creates_parameters_witness :
    ∃ L' W', LayerSetUp onesFiller (Layer.fresh (boxParam true)) ⟨0, []⟩ [onesInput]
        = .ok (L', W') ∧
      ((boxParam true).bias_term = false →
        ∃ w, L'.blobs_ = [w] ∧ w.shape_ = [1, 1, L'.kernel_h_, L'.kernel_w_] ∧
          W'.calls = [] ++ [⟨(boxParam true).weight_filler, 0, w.shape_⟩]) ∧
      ((boxParam true).bias_term = true →
        ∃ w b, L'.blobs_ = [w, b] ∧ w.shape_ = [1, 1, L'.kernel_h_, L'.kernel_w_] ∧
          b.shape_ = [1] ∧
          W'.calls = [] ++ [⟨(boxParam true).weight_filler, 0, w.shape_⟩,
            ⟨(boxParam true).bias_filler, 1, b.shape_⟩]) :=
  LayerSetUp_creates_parameters onesFiller (Layer.fresh (boxParam true)) ⟨0, []⟩ [onesInput]
    onesInput 1 rfl rfl (by decide) (by decide) (by decide) rfl

/-! ## Claim on `Forward_cpu` -/

/-- C5: for inputs of shape (N, C, H, W), a weight of shape (C, 1, kernel_h, kernel_w) and an
optional bias, with the layer's geometry consistent with these shapes, `Forward_cpu` returns
and every output tensor holds output[n,c,oh,ow] = Σ over kernel offsets (kh,kw) of
weight[c,0,kh,kw] * input[n,c, oh*stride_h - pad_h + kh*dilation_h,
ow*stride_w - pad_w + kw*dilation_w], a coordinate outside the input contributing zero, plus
bias[c] when bias is enabled. -/
theorem Forward_cpu_computes_convolution [CommRing R] (L : Layer R)
    (bottom top : List (Blob R)) (N C H W OH OW KH KW : Nat) (w bias : Blob R)
    (hw : L.blobs_[0]? = some w) (hwshape : w.shape_ = [(C : Int), 1, KH, KW])
    (hbias : L.bias_term_ = true → L.blobs_[1]? = some bias)
    (hlen : bottom.length ≤ top.length)
    (hbot : ∀ b, b ∈ bottom → b.shape_ = [(N : Int), C, H, W])
    (htop : ∀ t, t ∈ top → t.shape_ = [(N : Int), C, OH, OW] ∧ N * C * OH * OW ≤ t.data_.length)
    (hkh : L.kernel_h_ = KH) (hkw : L.kernel_w_ = KW)
    (hin : L.input_shape = [(C : Int), H, W]) (hout : L.output_shape_ = [(OH : Int), OW])
    (hnum : L.num_ = N) (hbd : L.bottom_dim_ = C * H * W) (htd : L.top_dim_ = C * OH * OW) :
    ∃ top', Forward_cpu L bottom top = .ok top' ∧ top'.length = top.length ∧
      ∀ (i : Nat) (b t' : Blob R), bottom[i]? = some b → top'[i]? = some t' →
        t'.shape_ = [(N : Int), C, OH, OW] ∧
        ∀ n c oh ow : Nat, n < N → c < C → oh < OH → ow < OW →
          t'.data_at n c oh ow =
            (∑ kh in Finset.range KH, ∑ kw in Finset.range KW,
              w.data_at c 0 kh kw *
                b.padded_at n c (oh * L.stride_h_ - L.pad_h_ + kh * L.dilation_h_)
                  (ow * L.stride_w_ - L.pad_w_ + kw * L.dilation_w_)) +
            if L.bias_term_ then rd bias.data_ c else 0 := by
  have hbias' : L.bias_term_ = true → ∃ b1, L.blobs_[1]? = some b1 := fun h => ⟨bias, hbias h⟩
  obtain ⟨top', hrun, hlen', -, hval⟩ :=
    Forward_cpu_loop L w.data_ bottom top hbias' hlen bottom.length (le_refl _)
  refine ⟨top', ?_, hlen', ?_⟩
  · unfold Forward_cpu
    rw [elemAt_eq_ok hw]
    exact hrun
  intro i b t' hb ht'
  have hib : i < bottom.length := by
    by_contra hcon
    rw [List.getElem?_eq_none (Nat.le_of_not_lt hcon)] at hb
    cases hb
  have hit : i < top.length := by omega
  have ht : top[i]? = some top[i] := List.getElem?_eq_getElem hit
  have ht'' := hval i hib b top[i] hb ht
  rw [ht'] at ht''
  injection ht'' with ht''
  obtain ⟨htshape, htlen⟩ := htop top[i] (List.getElem_mem hit)
  have hbshape := hbot b (List.getElem?_mem hb)
  refine ⟨by rw [ht'']; exact htshape, ?_⟩
  intro n c oh ow hn hc hoh how
  have hgC : L.geom.C = C := by simp [Layer.geom, hin]
  have hgOH : L.geom.OH = OH := by simp [Layer.geom, hout]
  have hgOW : L.geom.OW = OW := by simp [Layer.geom, hout]
  have hgKH : L.geom.KH = KH := by simp [Layer.geom, hkh]
  have hgKW : L.geom.KW = KW := by simp [Layer.geom, hkw]
  have hT : L.top_dim_ = L.geom.C * L.geom.OH * L.geom.OW := by rw [hgC, hgOH, hgOW, htd]
  have hk : (c * OH + oh) * OW + ow < C * OH * OW := flat_lt c oh ow C OH OW hc hoh how
  have hidx : ((n * C + c) * OH + oh) * OW + ow = n * L.top_dim_ + ((c * OH + oh) * OW + ow) := by
    rw [htd]; ring
  have hdiv : (n * L.top_dim_ + ((c * OH + oh) * OW + ow)) / L.top_dim_ = n := by
    rw [htd]
    apply Nat.div_eq_of_lt_le
    · omega
    · rw [Nat.succ_mul]; omega
  have hmod : (n * L.top_dim_ + ((c * OH + oh) * OW + ow)) % L.top_dim_
      = (c * OH + oh) * OW + ow := by
    rw [htd, Nat.add_comm, Nat.add_mul_mod_self_right, Nat.mod_eq_of_lt hk]
  have hjN : n * L.top_dim_ + ((c * OH + oh) * OW + ow) < L.num_ * L.top_dim_ := by
    rw [hnum, htd]
    calc n * (C * OH * OW) + ((c * OH + oh) * OW + ow) < n * (C * OH * OW) + C * OH * OW := by
          omega
      _ = (n + 1) * (C * OH * OW) := by ring
      _ ≤ N * (C * OH * OW) := Nat.mul_le_mul_right _ hn
  have hjlen : n * L.top_dim_ + ((c * OH + oh) * OW + ow) < top[i].data_.length := by
    have h1 : L.num_ * L.top_dim_ = N * C * OH * OW := by rw [hnum, htd]; ring
    omega
  obtain ⟨hd1, hd2, hd3⟩ := decode_flat c oh ow OH OW hoh how
  have hshape' : t'.shape_ = [(N : Int), C, OH, OW] := by rw [ht'']; exact htshape
  have htc : t'.channels = C := by simp [Blob.channels, Blob.LegacyShape, hshape']
  have hth : t'.height = OH := by simp [Blob.height, Blob.LegacyShape, hshape']
  have htw : t'.width = OW := by simp [Blob.width, Blob.LegacyShape, hshape']
  have hwc : w.channels = 1 := by simp [Blob.channels, Blob.LegacyShape, hwshape]
  have hwh : w.height = KH := by simp [Blob.height, Blob.LegacyShape, hwshape]
  have hww : w.width = KW := by simp [Blob.width, Blob.LegacyShape, hwshape]
  have hdata : t'.data_
      = (List.range L.num_).foldl (forwardSample L b.data_ w.data_) top[i].data_ := by
    rw [ht'']
  unfold Blob.data_at
  rw [htc, hth, htw, hdata]
  simp only [Int.toNat_ofNat]
  rw [hidx, rd_foldl_forwardSample L _ _ _ hT, if_pos ⟨hjN, hjlen⟩, hdiv, hmod]
  unfold forwardValue
  rw [hgOH, hgOW, hgKH, hgKW, hd1, hd2, hd3]
  congr 1
  · apply Finset.sum_congr rfl
    intro kh _
    apply Finset.sum_congr rfl
    intro kw _
    rw [paddedAt_eq_padded_at L b N C H W n c _ _ hbshape hin hbd, hwc, hwh, hww]
    simp only [Layer.geom, Int.toNat_ofNat, Int.toNat_one, Nat.mul_one, Nat.add_zero]
  · by_cases hb1 : L.bias_term_ = true
    · simp only [hb1, if_true, Layer.biasData, hbias hb1]
    · have hb1' : L.bias_term_ = false := by simpa using hb1
      simp only [hb1', Bool.false_eq_true, if_false]

/-- C5, at the 1x1x4x4 all-ones input with the all-ones 3x3 kernel, stride 1, pad 1,
dilation 1, no bias: the formula holds and the output is 9 in interior cells, 6 on
non-corner edge cells and 4 in the corners. -/
theorem Forward_cpu_computes_convolution_witness :
    (∃ top', Forward_cpu boxForwardLayer [onesInput] [zeroOutput] = .ok top' ∧
      top'.length = 1 ∧
      ∀ (i : Nat) (b t' : Blob ℤ), [onesInput][i]? = some b → top'[i]? = some t' →
        t'.shape_ = [1, 1, 4, 4] ∧
        ∀ n c oh ow : Nat, n < 1 → c < 1 → oh < 4 → ow < 4 →
          t'.data_at n c oh ow =
            (∑ kh in Finset.range 3, ∑ kw in Finset.range 3,
              onesKernel.data_at c 0 kh kw *
                b.padded_at n c (oh * 1 - 1 + kh * 1) (ow * 1 - 1 + kw * 1)) +
            if false then rd emptyBlob.data_ c else 0) ∧
    Forward_cpu boxForwardLayer [onesInput] [zeroOutput] = .ok
      [{ shape_ := [1, 1, 4, 4]
         data_ := [4, 6, 6, 4,
                   6, 9, 9, 6,
                   6, 9, 9, 6,
                   4, 6, 6, 4]
         diff_ := List.replicate 16 0 }] :=
  ⟨Forward_cpu_computes_convolution boxForwardLayer [onesInput] [zeroOutput] 1 1 4 4 4 4 3 3
    onesKernel emptyBlob rfl rfl (by decide) (by decide)
    (by intro b hb; simp at hb; subst hb; rfl)
    (by intro t ht; simp at ht; subst ht; exact ⟨rfl, by decide⟩)
    rfl rfl rfl rfl rfl rfl rfl, by rfl⟩

/-! ## Claims on `Backward_cpu` -/

theorem rd_eq_zero_of_forall_mem [Zero R] {buf : List R} (h : ∀ x, x ∈ buf → x = 0) (k : Nat) :
    rd buf k = 0 := by
  by_cases hk : k < buf.length
  · have : rd buf k = buf[k] := by
      simp [rd, List.getD_eq_getElem?_getD, List.getElem?_eq_getElem hk]
    rw [this]
    exact h _ (List.getElem_mem hk)
  · exact rd_of_length_le (Nat.le_of_not_lt hk)

theorem rd_map_of_map_zero [Zero R] (f : R → R) (hf : f 0 = 0) (buf : List R) (k : Nat) :
    rd (buf.map f) k = f (rd buf k) := by
  by_cases hk : k < buf.length
  · simp [rd, List.getD_eq_getElem?_getD, List.getElem?_map, List.getElem?_eq_getElem hk]
  · have hk' := Nat.le_of_not_lt hk
    rw [rd_of_length_le hk', rd_of_length_le (by simpa using hk'), hf]

theorem weightGrad_congr [CommRing R] (L : Layer R) (blobs : List (Blob R))
    (top bottom bottom1 : List (Blob R)) (len k : Nat)
    (hdata : ∀ i, dataOf bottom1 i = dataOf bottom i) :
    weightGrad { L with blobs_ := blobs } top bottom1 len k = weightGrad L top bottom len k := by
  unfold weightGrad
  apply Finset.sum_congr rfl
  intro i _
  apply Finset.sum_congr rfl
  intro n _
  rw [hdata i]
  rfl

/-- C8: with the weight's gradient flag set and the weight-gradient buffer initially zero,
two `Backward_cpu` calls in a row on the same output gradients, inputs and weights, without
zeroing in between, both return, and the weight gradient after the second is exactly twice
the weight gradient after the first, for any number of tensor pairs and samples. -/
theorem Backward_cpu_twice_doubles_weight_gradient [CommRing R] (L : Layer R)
    (top : List (Blob R)) (propagate_down : List Bool) (bottom : List (Blob R)) (w : Blob R)
    (hw : L.blobs_[0]? = some w) (hflag : L.param_propagate_down_[0]? = some true)
    (hzero : ∀ x, x ∈ w.diff_ → x = 0)
    (hbias : L.bias_term_ = true → ∃ p1, L.param_propagate_down_[1]? = some p1 ∧
      (p1 = true → 1 < L.blobs_.length))
    (hlenb : top.length ≤ bottom.length) (hlenp : top.length ≤ propagate_down.length) :
    ∃ L1 bottom1 L2 bottom2 w1 w2,
      Backward_cpu L top propagate_down bottom = .ok (L1, bottom1) ∧
      Backward_cpu L1 top propagate_down bottom1 = .ok (L2, bottom2) ∧
      L1.blobs_[0]? = some w1 ∧ L2.blobs_[0]? = some w2 ∧
      w1.data_ = w.data_ ∧ w2.data_ = w.data_ ∧
      w2.diff_ = w1.diff_.map fun x => 2 * x := by
  obtain ⟨blobs1, bot1, hrun1, hl1, hlb1, hdata1, w1, hw1, hwd1, hws1, hwl1, hrd1⟩ :=
    Backward_cpu_ok L top propagate_down bottom hw hflag hbias hlenb hlenp
  have hbias1 : ({ L with blobs_ := blobs1 } : Layer R).bias_term_ = true →
      ∃ p1, ({ L with blobs_ := blobs1 } : Layer R).param_propagate_down_[1]? = some p1 ∧
        (p1 = true → 1 < ({ L with blobs_ := blobs1 } : Layer R).blobs_.length) := by
    intro h
    obtain ⟨p1, hp1, hlen⟩ := hbias h
    exact ⟨p1, hp1, fun hp => by rw [hl1]; exact hlen hp⟩
  obtain ⟨blobs2, bot2, hrun2, hl2, hlb2, hdata2, w2, hw2, hwd2, hws2, hwl2, hrd2⟩ :=
    Backward_cpu_ok { L with blobs_ := blobs1 } top propagate_down bot1
      hw1 hflag hbias1 (by rw [hlb1]; exact hlenb) hlenp
  refine ⟨_, bot1, _, bot2, w1, w2, hrun1, hrun2, hw1, hw2, hwd1, by rw [hwd2, hwd1], ?_⟩
  apply rd_eq_of_eq_length_of_forall
  · rw [List.length_map, hwl2]
  · intro k
    rw [rd_map_of_map_zero _ (mul_zero 2), hrd2 k, hrd1 k, rd_eq_zero_of_forall_mem hzero k]
    simp only [if_true, zero_add]
    rw [weightGrad_congr L blobs1 top bottom bot1 _ k hdata1, hwl1, two_mul]

/-- C8, at the 3x3 box layer with one 1x1x4x4 pair whose output gradient is 1, ..., 16. -/
theorem Backward_cpu_twice_doubles_weight_gradient_witness :
    ∃ L1 bottom1 L2 bottom2 w1 w2,
      Backward_cpu boxForwardLayer [gradOutput] [true] [onesInput] = .ok (L1, bottom1) ∧
      Backward_cpu L1 [gradOutput] [true] bottom1 = .ok (L2, bottom2) ∧
      L1.blobs_[0]? = some w1 ∧ L2.blobs_[0]? = some w2 ∧
      w1.data_ = onesKernel.data_ ∧ w2.data_ = onesKernel.data_ ∧
      w2.diff_ = w1.diff_.map fun x => 2 * x :=
  Backward_cpu_twice_doubles_weight_gradient boxForwardLayer [gradOutput] [true] [onesInput]
    onesKernel rfl rfl (by decide) (by decide) (by decide) (by decide)

/-- C9: with bias enabled, the bias gradient flag set, a single tensor pair and the
bias-gradient buffer initially zero, `Backward_cpu` returns and leaves, for every channel c,
bias_gradient[c] = Σ over all samples n and output positions (oh, ow) of
d output[n,c,oh,ow]. -/
theorem Backward_cpu_bias_gradient_is_sum [CommRing R] (L : Layer R) (t b w b1 : Blob R)
    (propagate_down : List Bool) (p0 : Bool) (N C H W OH OW : Nat)
    (hbt : L.bias_term_ = true) (hflag : L.param_propagate_down_[1]? = some true)
    (hp0 : L.param_propagate_down_[0]? = some p0)
    (hw : L.blobs_[0]? = some w) (hb1 : L.blobs_[1]? = some b1)
    (hzero : ∀ x, x ∈ b1.diff_ → x = 0) (hblen : b1.diff_.length = C)
    (hpd : propagate_down ≠ [])
    (htshape : t.shape_ = [(N : Int), C, OH, OW])
    (hin : L.input_shape = [(C : Int), H, W]) (hout : L.output_shape_ = [(OH : Int), OW])
    (hnum : L.num_ = N) (htd : L.top_dim_ = C * OH * OW) :
    ∃ L' bottom' b1', Backward_cpu L [t] propagate_down [b] = .ok (L', bottom') ∧
      L'.blobs_[1]? = some b1' ∧ b1'.data_ = b1.data_ ∧ b1'.diff_.length = C ∧
      ∀ c, c < C →
        rd b1'.diff_ c =
          ∑ n in Finset.range N, ∑ oh in Finset.range OH, ∑ ow in Finset.range OW,
            t.diff_at n c oh ow := by
  obtain ⟨pd0, hpd0⟩ := exists_head_of_ne_nil hpd
  have hbias : L.bias_term_ = true → ∃ p1, L.param_propagate_down_[1]? = some p1 ∧
      (p1 = true → ∃ b1, L.blobs_[1]? = some b1) := fun _ => ⟨true, hflag, fun _ => ⟨b1, hb1⟩⟩
  have hstep := Backward_cpu_pair_ok L [t] propagate_down L.blobs_ [b] 0
    (by simp : [t][0]? = some t) (by simp : [b][0]? = some b) hw hp0 hpd0 hbias
  have hget : L.param_propagate_down_.getD 1 false = true := by
    simp [List.getD_eq_getElem?_getD, hflag]
  have hb1' : (backwardBias L t.diff_ L.blobs_)[1]?
      = some { b1 with diff_ := backwardBiasDiff L t.diff_ b1.diff_ } := by
    rw [getElem?_backwardBias_one, hb1, hbt, hget]
    rfl
  have hgC : L.geom.C = C := by simp [Layer.geom, hin]
  have hgOH : L.geom.OH = OH := by simp [Layer.geom, hout]
  have hgOW : L.geom.OW = OW := by simp [Layer.geom, hout]
  have htc : t.channels = C := by simp [Blob.channels, Blob.LegacyShape, htshape]
  have hth : t.height = OH := by simp [Blob.height, Blob.LegacyShape, htshape]
  have htw : t.width = OW := by simp [Blob.width, Blob.LegacyShape, htshape]
  have hval : ∀ c, c < C →
      rd (backwardBiasDiff L t.diff_ b1.diff_) c =
        ∑ n in Finset.range N, ∑ oh in Finset.range OH, ∑ ow in Finset.range OW,
          t.diff_at n c oh ow := by
    intro c hc
    rw [rd_backwardBiasDiff, rd_eq_zero_of_forall_mem hzero c, zero_add, hnum]
    apply Finset.sum_congr rfl
    intro n _
    unfold biasDelta
    rw [hgC, hgOH, hgOW, if_pos ⟨hc, by omega⟩]
    apply Finset.sum_congr rfl
    intro oh _
    apply Finset.sum_congr rfl
    intro ow _
    unfold Blob.diff_at
    rw [htc, hth, htw, htd]
    simp only [Int.toNat_ofNat]
    congr 1
    ring
  have hrun : ∀ r, Backward_cpu_pair L [t] propagate_down (L.blobs_, [b]) 0 = .ok r →
      Backward_cpu L [t] propagate_down [b] = .ok ({ L with blobs_ := r.1 }, r.2) := by
    intro r hr
    have hfold : (List.range [t].length).foldlM (Backward_cpu_pair L [t] propagate_down)
        (L.blobs_, [b]) = .ok r := by
      show List.foldlM _ _ [0] = _
      rw [List.foldlM_cons, hr]
      rfl
    unfold Backward_cpu
    rw [elemAt_eq_ok hw]
    simp only [bind, Except.bind]
    rw [hfold]
    rfl
  by_cases henter : (p0 || pd0) = true
  · rw [if_pos henter] at hstep
    refine ⟨_, _, { b1 with diff_ := backwardBiasDiff L t.diff_ b1.diff_ }, hrun _ hstep, ?_,
      rfl, ?_, hval⟩
    · show ((backwardBias L t.diff_ L.blobs_).set 0 _)[1]? = _
      rw [List.getElem?_set, if_neg (by decide), hb1']
    · show (backwardBiasDiff L t.diff_ b1.diff_).length = C
      rw [length_backwardBiasDiff, hblen]
  · rw [if_neg henter] at hstep
    refine ⟨_, _, { b1 with diff_ := backwardBiasDiff L t.diff_ b1.diff_ }, hrun _ hstep, ?_,
      rfl, ?_, hval⟩
    · exact hb1'
    · show (backwardBiasDiff L t.diff_ b1.diff_).length = C
      rw [length_backwardBiasDiff, hblen]

/-- C9, at the box layer with bias and one 1x1x4x4 pair whose output gradient is 1, ..., 16:
the bias gradient is their sum. -/
theorem Backward_cpu_bias_gradient_is_sum_witness :
    (∃ L' bottom' b1', Backward_cpu boxBiasLayer [gradOutput] [true] [onesInput]
        = .ok (L', bottom') ∧
      L'.blobs_[1]? = some b1' ∧ b1'.data_ = [0] ∧ b1'.diff_.length = 1 ∧
      ∀ c, c < 1 →
        rd b1'.diff_ c =
          ∑ n in Finset.range 1, ∑ oh in Finset.range 4, ∑ ow in Finset.range 4,
            gradOutput.diff_at n c oh ow) ∧
    (∑ n in Finset.range 1, ∑ oh in Finset.range 4, ∑ ow in Finset.range 4,
      gradOutput.diff_at n 0 oh ow) = 136 :=
  ⟨Backward_cpu_bias_gradient_is_sum boxBiasLayer gradOutput onesInput onesKernel
    { shape_ := [1], data_ := [0], diff_ := [0] } [true] true 1 1 4 4 4 4
    rfl rfl rfl rfl rfl (by decide) rfl (by decide) rfl rfl rfl rfl rfl, by decide⟩

theorem bind_ok_inv {α β : Type} {x : Except Fault α} {f : α → Except Fault β} {b : β}
    (h : x >>= f = .ok b) : ∃ a, x = .ok a ∧ f a = .ok b := by
  cases x with
  | error e => cases h
  | ok a => exact ⟨a, rfl, h⟩

/-- A relation that every successful iteration of a loop establishes between the state before
and after, and that is reflexive and transitive, holds between the initial and the final state
of the loop. -/
theorem foldlM_ok_rel {α β : Type} (f : β → α → Except Fault β) (Rel : β → β → Prop)
    (hrefl : ∀ b, Rel b b) (htrans : ∀ a b c, Rel a b → Rel b c → Rel a c)
    (hstep : ∀ b a b1, f b a = .ok b1 → Rel b b1) (l : List α) (b b' : β)
    (h : l.foldlM f b = .ok b') : Rel b b' := by
  induction l generalizing b with
  | nil =>
    have h' : (Except.ok b : Except Fault β) = .ok b' := h
    injection h' with h'
    subst h'
    exact hrefl b
  | cons a l ih =>
    rw [List.foldlM_cons] at h
    obtain ⟨b1, h1, h2⟩ := bind_ok_inv h
    exact htrans _ _ _ (hstep b a b1 h1) (ih b1 h2)

theorem Backward_cpu_sample_inv [CommRing R] (L : Layer R) (weight bottom_data top_diff : List R)
    (propagate_down : List Bool) (i : Nat) (st st' : List R × List R) (n : Nat)
    (h : Backward_cpu_sample L weight bottom_data top_diff propagate_down i st n = .ok st') :
    ∃ p0 pd, L.param_propagate_down_[0]? = some p0 ∧ propagate_down[i]? = some pd ∧
      st' = backwardSample L weight bottom_data top_diff p0 pd st n := by
  unfold Backward_cpu_sample at h
  obtain ⟨p0, hp0, h⟩ := bind_ok_inv h
  obtain ⟨pd, hpd, h⟩ := bind_ok_inv h
  refine ⟨p0, pd, elemAt_ok_iff.mp hp0, elemAt_ok_iff.mp hpd, ?_⟩
  have h' : (Except.ok (backwardSample L weight bottom_data top_diff p0 pd st n)
      : Except Fault (List R × List R)) = .ok st' := h
  injection h' with h'
  exact h'.symm

/-- The loop over `n` at lines 193-204 leaves `weight_diff` alone when the weight's gradient
flag is false and `bottom_diff` alone when the propagate flag of the pair is false. -/
theorem Backward_cpu_samples_frame [CommRing R] (L : Layer R)
    (weight bottom_data top_diff : List R) (propagate_down : List Bool) (i : Nat)
    (l : List Nat) (st st' : List R × List R)
    (h : l.foldlM (Backward_cpu_sample L weight bottom_data top_diff propagate_down i) st
      = .ok st') :
    (L.param_propagate_down_[0]? = some false → st'.1 = st.1) ∧
    (propagate_down[i]? = some false → st'.2 = st.2) := by
  refine foldlM_ok_rel _
    (fun (a b : List R × List R) => (L.param_propagate_down_[0]? = some false → b.1 = a.1) ∧
      (propagate_down[i]? = some false → b.2 = a.2))
    (fun _ => ⟨fun _ => rfl, fun _ => rfl⟩)
    (fun (a b c : List R × List R) hab hbc => ⟨fun hf => (hbc.1 hf).trans (hab.1 hf),
      fun hf => (hbc.2 hf).trans (hab.2 hf)⟩)
    ?_ l st st' h
  intro b n b1 hb
  obtain ⟨p0, pd, hp0, hpd, rfl⟩ := Backward_cpu_sample_inv L _ _ _ _ _ _ _ _ hb
  constructor
  · intro hf
    rw [hp0] at hf
    injection hf with hf
    subst hf
    simp [backwardSample]
  · intro hf
    rw [hpd] at hf
    injection hf with hf
    subst hf
    simp [backwardSample]

/-- What one pass through lines 186-191 may change in the parameter list: only the gradient
buffer of `blobs_[1]`, and only when bias is enabled and its gradient flag is set. -/
theorem Backward_cpu_bias_part_frame [CommRing R] (L : Layer R) (top_diff : List R)
    (blobs blobs' : List (Blob R)) (h : Backward_cpu_bias_part L top_diff blobs = .ok blobs') :
    blobs'.length = blobs.length ∧
    (∀ k : Nat, k ≠ 1 → blobs'[k]? = blobs[k]?) ∧
    (∀ k : Nat, blobs'[k]?.map Blob.data_ = blobs[k]?.map Blob.data_) ∧
    (∀ k : Nat, blobs'[k]?.map Blob.shape_ = blobs[k]?.map Blob.shape_) ∧
    ((L.bias_term_ = false ∨ L.param_propagate_down_[1]? = some false) → blobs' = blobs) := by
  have hsame : ∀ bs : List (Blob R), (Except.ok blobs : Except Fault (List (Blob R))) = .ok bs →
      bs.length = blobs.length ∧
      (∀ k : Nat, k ≠ 1 → bs[k]? = blobs[k]?) ∧
      (∀ k : Nat, bs[k]?.map Blob.data_ = blobs[k]?.map Blob.data_) ∧
      (∀ k : Nat, bs[k]?.map Blob.shape_ = blobs[k]?.map Blob.shape_) ∧
      ((L.bias_term_ = false ∨ L.param_propagate_down_[1]? = some false) → bs = blobs) := by
    intro bs hbs
    injection hbs with hbs
    subst hbs
    exact ⟨rfl, fun _ _ => rfl, fun _ => rfl, fun _ => rfl, fun _ => rfl⟩
  unfold Backward_cpu_bias_part at h
  by_cases hb : L.bias_term_ = true
  · rw [if_pos hb] at h
    obtain ⟨p1, hp1, h⟩ := bind_ok_inv h
    have hp1' := elemAt_ok_iff.mp hp1
    cases p1 with
    | false => exact hsame blobs' h
    | true =>
      simp only [if_true] at h
      obtain ⟨b1, hb1, h⟩ := bind_ok_inv h
      have hb1' := elemAt_ok_iff.mp hb1
      have h' : (Except.ok (blobs.set 1 { b1 with diff_ := backwardBiasDiff L top_diff b1.diff_ })
          : Except Fault (List (Blob R))) = .ok blobs' := h
      injection h' with h'
      subst h'
      refine ⟨List.length_set _ _ _, ?_, ?_, ?_, ?_⟩
      · intro k hk
        rw [List.getElem?_set, if_neg (Ne.symm hk)]
      · intro k
        by_cases hk : 1 = k
        · subst hk
          rw [getElem?_set_self_of_some _ hb1', hb1']
          rfl
        · rw [List.getElem?_set, if_neg hk]
      · intro k
        by_cases hk : 1 = k
        · subst hk
          rw [getElem?_set_self_of_some _ hb1', hb1']
          rfl
        · rw [List.getElem?_set, if_neg hk]
      · rintro (hf | hf)
        · rw [hf] at hb
          cases hb
        · rw [hp1'] at hf
          cases hf
  · rw [if_neg hb] at h
    exact hsame blobs' h

theorem BackwardFrame.refl (L : Layer R) (propagate_down : List Bool)
    (s : List (Blob R) × List (Blob R)) : BackwardFrame L propagate_down s s :=
  ⟨rfl, rfl, fun _ => rfl, fun _ => rfl, fun _ => rfl, fun _ => rfl, fun _ => rfl, fun _ => rfl,
    fun _ _ => rfl, fun _ _ => rfl⟩

theorem BackwardFrame.trans (L : Layer R) (propagate_down : List Bool)
    (a b c : List (Blob R) × List (Blob R)) (hab : BackwardFrame L propagate_down a b)
    (hbc : BackwardFrame L propagate_down b c) : BackwardFrame L propagate_down a c := by
  obtain ⟨a1, a2, a3, a4, a5, a6, a7, a8, a9, a10⟩ := hab
  obtain ⟨b1, b2, b3, b4, b5, b6, b7, b8, b9, b10⟩ := hbc
  exact ⟨b1.trans a1, b2.trans a2, fun k => (b3 k).trans (a3 k), fun k => (b4 k).trans (a4 k),
    fun i => (b5 i).trans (a5 i), fun i => (b6 i).trans (a6 i),
    fun h => (b7 h).trans (a7 h), fun h => (b8 h).trans (a8 h),
    fun k hk => (b9 k hk).trans (a9 k hk), fun i hi => (b10 i hi).trans (a10 i hi)⟩

theorem BackwardFrame_of_bias_part [CommRing R] (L : Layer R) (propagate_down : List Bool)
    (top_diff : List R) (blobs blobs' bot : List (Blob R))
    (h : Backward_cpu_bias_part L top_diff blobs = .ok blobs') :
    BackwardFrame L propagate_down (blobs, bot) (blobs', bot) := by
  obtain ⟨h1, h2, h3, h4, h5⟩ := Backward_cpu_bias_part_frame L top_diff blobs blobs' h
  exact ⟨h1, rfl, h3, h4, fun _ => rfl, fun _ => rfl, fun _ => h2 0 (by decide),
    fun hf => by rw [h5 hf], fun k hk => h2 k (by omega), fun _ _ => rfl⟩

/-- Lines 193-204 with the write-back of the two buffers: the frame of the branch entered when
a weight or an input gradient is requested. -/
theorem BackwardFrame_of_enter [CommRing R] (L : Layer R) (top_diff : List R)
    (propagate_down : List Bool) (blobs bot : List (Blob R)) (i : Nat) {b w : Blob R}
    {r : List R × List R}
    (hb : bot[i]? = some b) (hw : blobs[0]? = some w)
    (hr : (List.range L.num_).foldlM
      (Backward_cpu_sample L w.data_ b.data_ top_diff propagate_down i) (w.diff_, b.diff_)
        = .ok r) :
    BackwardFrame L propagate_down (blobs, bot)
      (blobs.set 0 { w with diff_ := r.1 }, bot.set i { b with diff_ := r.2 }) := by
  obtain ⟨hr1, hr2⟩ := Backward_cpu_samples_frame L _ _ _ _ _ _ _ _ hr
  have hset0 : ∀ k : Nat, k ≠ 0 → (blobs.set 0 { w with diff_ := r.1 })[k]? = blobs[k]? := by
    intro k hk
    rw [List.getElem?_set, if_neg (Ne.symm hk)]
  have hseti : ∀ j : Nat, j ≠ i → (bot.set i { b with diff_ := r.2 })[j]? = bot[j]? := by
    intro j hj
    rw [List.getElem?_set, if_neg (Ne.symm hj)]
  refine ⟨List.length_set _ _ _, List.length_set _ _ _, ?_, ?_, ?_, ?_, ?_, ?_, ?_, ?_⟩
  · intro k
    by_cases hk : k = 0
    · subst hk
      simp only
      rw [getElem?_set_self_of_some _ hw, hw]
      rfl
    · simp only
      rw [hset0 k hk]
  · intro k
    by_cases hk : k = 0
    · subst hk
      simp only
      rw [getElem?_set_self_of_some _ hw, hw]
      rfl
    · simp only
      rw [hset0 k hk]
  · intro j
    by_cases hj : j = i
    · subst hj
      simp only
      rw [getElem?_set_self_of_some _ hb, hb]
      rfl
    · simp only
      rw [hseti j hj]
  · intro j
    by_cases hj : j = i
    · subst hj
      simp only
      rw [getElem?_set_self_of_some _ hb, hb]
      rfl
    · simp only
      rw [hseti j hj]
  · intro hf
    simp only
    rw [getElem?_set_self_of_some _ hw, hw, hr1 hf]
  · intro _
    exact hset0 1 (by decide)
  · intro k hk
    exact hset0 k (by omega)
  · intro j hf
    by_cases hj : j = i
    · subst hj
      simp only
      rw [getElem?_set_self_of_some _ hb, hb, hr2 hf]
    · exact hseti j hj

theorem ok_inj {α : Type} {a b : α} (h : (Except.ok a : Except Fault α) = .ok b) : a = b := by
  injection h

/-- The frame of lines 192-205 once the guard `enter` has been evaluated. -/
theorem BackwardFrame_of_guarded [CommRing R] (L : Layer R) (top_diff : List R)
    (propagate_down : List Bool) (blobs bot : List (Blob R)) (i : Nat) {b : Blob R}
    (enter : Bool) (s' : List (Blob R) × List (Blob R)) (hb : bot[i]? = some b)
    (h : (if enter = true then do
        let w ← elemAt blobs 0
        let r ← (List.range L.num_).foldlM
          (Backward_cpu_sample L w.data_ b.data_ top_diff propagate_down i) (w.diff_, b.diff_)
        pure (blobs.set 0 { w with diff_ := r.1 }, bot.set i { b with diff_ := r.2 })
      else pure (blobs, bot)) = .ok s') :
    BackwardFrame L propagate_down (blobs, bot) s' := by
  cases enter with
  | false =>
    have h' := ok_inj h
    subst h'
    exact BackwardFrame.refl L propagate_down _
  | true =>
    simp only [if_true] at h
    obtain ⟨w, hw, h⟩ := bind_ok_inv h
    obtain ⟨r, hr, h⟩ := bind_ok_inv h
    have h' := ok_inj h
    subst h'
    exact BackwardFrame_of_enter L top_diff propagate_down blobs bot i hb
      (elemAt_ok_iff.mp hw) hr

theorem Backward_cpu_pair_frame [CommRing R] (L : Layer R) (top : List (Blob R))
    (propagate_down : List Bool) (s s' : List (Blob R) × List (Blob R)) (i : Nat)
    (h : Backward_cpu_pair L top propagate_down s i = .ok s') :
    BackwardFrame L propagate_down s s' := by
  unfold Backward_cpu_pair at h
  obtain ⟨t, -, h⟩ := bind_ok_inv h
  obtain ⟨b, hb, h⟩ := bind_ok_inv h
  obtain ⟨blobsB, hB, h⟩ := bind_ok_inv h
  obtain ⟨p0, -, h⟩ := bind_ok_inv h
  have hbias := BackwardFrame_of_bias_part L propagate_down t.diff_ s.1 blobsB s.2 hB
  dsimp only at h
  cases p0 with
  | false =>
    simp only [Bool.false_eq_true, if_false] at h
    obtain ⟨enter, -, h⟩ := bind_ok_inv h
    exact BackwardFrame.trans L propagate_down _ _ _ hbias
      (BackwardFrame_of_guarded L t.diff_ propagate_down blobsB s.2 i enter s'
        (elemAt_ok_iff.mp hb) h)
  | true =>
    simp only [if_true] at h
    obtain ⟨enter, -, h⟩ := bind_ok_inv h
    exact BackwardFrame.trans L propagate_down _ _ _ hbias
      (BackwardFrame_of_guarded L t.diff_ propagate_down blobsB s.2 i enter s'
        (elemAt_ok_iff.mp hb) h)

/-- C10: for every `Backward_cpu` call that returns: bottom tensor `i` (its input gradient
included) is unchanged when propagate flag `i` is false; `blobs_[0]` (the weight gradient
included) is unchanged when the weight's gradient flag is false; `blobs_[1]` (the bias
gradient included) is unchanged when bias is disabled or the bias gradient flag is false; and
the data of every parameter tensor (weight, bias) and of every bottom tensor (input) is
unchanged, as is every field of the layer other than `blobs_`.  The output gradient is read
only: the call takes `top` and returns no new value for it. -/
theorem Backward_cpu_touches_only_requested_gradients [CommRing R] (L : Layer R)
    (top : List (Blob R)) (propagate_down : List Bool) (bottom : List (Blob R))
    (L' : Layer R) (bottom' : List (Blob R))
    (h : Backward_cpu L top propagate_down bottom = .ok (L', bottom')) :
    (∀ i : Nat, propagate_down[i]? = some false → bottom'[i]? = bottom[i]?) ∧
    (L.param_propagate_down_[0]? = some false → L'.blobs_[0]? = L.blobs_[0]?) ∧
    ((L.bias_term_ = false ∨ L.param_propagate_down_[1]? = some false) →
      L'.blobs_[1]? = L.blobs_[1]?) ∧
    (∀ k : Nat, L'.blobs_[k]?.map Blob.data_ = L.blobs_[k]?.map Blob.data_) ∧
    (∀ i : Nat, bottom'[i]?.map Blob.data_ = bottom[i]?.map Blob.data_) ∧
    L'.blobs_.length = L.blobs_.length ∧ bottom'.length = bottom.length ∧
    L' = { L with blobs_ := L'.blobs_ } := by
  unfold Backward_cpu at h
  obtain ⟨w, -, h⟩ := bind_ok_inv h
  obtain ⟨r, hr, h⟩ := bind_ok_inv h
  have h' := ok_inj h
  injection h' with hL hB
  subst hL
  subst hB
  obtain ⟨f1, f2, f3, -, f5, -, f7, f8, -, f10⟩ :=
    foldlM_ok_rel (Backward_cpu_pair L top propagate_down) (BackwardFrame L propagate_down)
      (BackwardFrame.refl L propagate_down) (BackwardFrame.trans L propagate_down)
      (fun s i s' hs => Backward_cpu_pair_frame L top propagate_down s s' i hs)
      _ _ _ hr
  exact ⟨f10, f7, f8, f3, f5, f1, f2, rfl⟩

/-- C10, at a call on two pairs where only the bias gradient and the input gradient of the
second pair are requested: the weight gradient and the first bottom tensor come back as they
were, the bias gradient and the second input gradient are written. -/
theorem Backward_cpu_touches_only_requested_gradients_witness :
    (∀ i : Nat, [false, true][i]? = some false →
      [onesInput, { onesInput with
        diff_ := [14, 24, 30, 22, 33, 54, 63, 45, 57, 90, 99, 69, 46, 72, 78, 54] }][i]?
        = [onesInput, onesInput][i]?) ∧
    (biasOnlyLayer.param_propagate_down_[0]? = some false →
      [onesKernel, { shape_ := [1], data_ := [0], diff_ := [272] }][0]?
        = biasOnlyLayer.blobs_[0]?) :=
  have h := Backward_cpu_touches_only_requested_gradients biasOnlyLayer
    [gradOutput, gradOutput] [false, true] [onesInput, onesInput]
    { biasOnlyLayer with
      blobs_ := [onesKernel, { shape_ := [1], data_ := [0], diff_ := [272] }] }
    [onesInput, { onesInput with
      diff_ := [14, 24, 30, 22, 33, 54, 63, 45, 57, 90, 99, 69, 46, 72, 78, 54] }]
    (by rfl)
  ⟨h.1, h.2.1⟩

/-! ## Further claims on `LayerSetUp` -/

theorem resizeTrue_nil (n : Nat) : resizeTrue [] n = List.replicate n true := by
  simp [resizeTrue]

/-- C11: after `LayerSetUp` on a layer with empty parameter storage and no gradient flag set
before, `param_propagate_down_` has exactly one entry per parameter tensor, `[true]` without
bias and `[true, true]` with bias, so every entry is true. -/
theorem LayerSetUp_sets_gradient_flags [Zero R] (GetFiller : FillerParameter → Filler R)
    (L : Layer R) (W : FillerWorld) (bottom : List (Blob R)) (hb : bottom ≠ [])
    (hk : Resolvable L.conv_param.kernel_h L.conv_param.kernel_w L.conv_param.kernel_size)
    (hs : Resolvable L.conv_param.stride_h L.conv_param.stride_w L.conv_param.stride)
    (hp : Resolvable L.conv_param.pad_h L.conv_param.pad_w L.conv_param.pad)
    (hempty : L.blobs_ = []) (hflags : L.param_propagate_down_ = []) :
    ∃ L' W', LayerSetUp GetFiller L W bottom = .ok (L', W') ∧
      L'.param_propagate_down_.length = L'.blobs_.length ∧
      (∀ x, x ∈ L'.param_propagate_down_ → x = true) ∧
      (L.conv_param.bias_term = false →
        L'.blobs_.length = 1 ∧ L'.param_propagate_down_ = [true]) ∧
      (L.conv_param.bias_term = true →
        L'.blobs_.length = 2 ∧ L'.param_propagate_down_ = [true, true]) := by
  obtain ⟨kernel, hk'⟩ := resolvePair_ok hk
  obtain ⟨stride, hs'⟩ := resolvePair_ok hs
  obtain ⟨pad, hp'⟩ := resolvePair_ok hp
  obtain ⟨dilation, hd'⟩ := resolveDilation_ok L.conv_param.dilation
  obtain ⟨b0, hb0⟩ := exists_head_of_ne_nil hb
  refine ⟨_, _, LayerSetUp_of_resolved GetFiller L W bottom hk' hs' hp' hd' hb0, ?_, ?_, ?_, ?_⟩
  · exact resizeTrue_length _ _
  · intro x hx
    simp only [hflags, resizeTrue_nil] at hx
    exact (List.mem_replicate.mp hx).2
  · intro hbias
    simp [initBlobs, hempty, hbias, hflags, resizeTrue_nil]
  · intro hbias
    simp [initBlobs, hempty, hbias, hflags, resizeTrue_nil]

/-- C11, at fresh layers with and without bias on the 1x1x4x4 input. -/
theorem LayerSetUp_sets_gradient_flags_witness :
    (∃ L' W', LayerSetUp onesFiller (Layer.fresh (boxParam true)) ⟨0, []⟩ [onesInput]
        = .ok (L', W') ∧
      L'.param_propagate_down_.length = L'.blobs_.length ∧
      (∀ x, x ∈ L'.param_propagate_down_ → x = true) ∧
      ((boxParam true).bias_term = false →
        L'.blobs_.length = 1 ∧ L'.param_propagate_down_ = [true]) ∧
      ((boxParam true).bias_term = true →
        L'.blobs_.length = 2 ∧ L'.param_propagate_down_ = [true, true])) :=
  LayerSetUp_sets_gradient_flags onesFiller (Layer.fresh (boxParam true)) ⟨0, []⟩ [onesInput]
    (by simp) (by decide) (by decide) (by decide) rfl rfl

theorem Resolvable_of_GroupGiven {xh xw : Option Int} {list : List Int}
    (h : GroupGiven xh xw list) : Resolvable xh xw list := by
  rcases h with h | h | h
  · exact Or.inl h
  · right
    intro hnil
    rw [hnil] at h
    cases h
  · right
    intro hnil
    rw [hnil] at h
    cases h

/-- C15: when each of kernel, stride and pad has both explicit fields or a list of length 1
or 2, and the dilation list has length 0, 1 or 2, each of the four resolution steps of
`LayerSetUp` returns a pair, that is, none of them reads a list element past the end of its
list; with a non-empty `bottom` the whole of `LayerSetUp` returns, and the only fault it can
end in is the read of `bottom[0]` on an empty `bottom`.  (The bound on the dilation list is
part of the claim; the proof does not need it.) -/
theorem LayerSetUp_resolution_stays_in_range [Zero R] (GetFiller : FillerParameter → Filler R)
    (L : Layer R) (W : FillerWorld) (bottom : List (Blob R))
    (hk : GroupGiven L.conv_param.kernel_h L.conv_param.kernel_w L.conv_param.kernel_size)
    (hs : GroupGiven L.conv_param.stride_h L.conv_param.stride_w L.conv_param.stride)
    (hp : GroupGiven L.conv_param.pad_h L.conv_param.pad_w L.conv_param.pad)
    (_hd : L.conv_param.dilation.length ≤ 2) :
    (∃ kernel stride pad dilation,
      resolvePair L.conv_param.kernel_h L.conv_param.kernel_w L.conv_param.kernel_size
        = .ok kernel ∧
      resolvePair L.conv_param.stride_h L.conv_param.stride_w L.conv_param.stride
        = .ok stride ∧
      resolvePair L.conv_param.pad_h L.conv_param.pad_w L.conv_param.pad = .ok pad ∧
      resolveDilation L.conv_param.dilation = .ok dilation) ∧
    (bottom ≠ [] → ∃ L' W', LayerSetUp GetFiller L W bottom = .ok (L', W')) ∧
    LayerSetUp GetFiller L W bottom ≠ .error Fault.divisionByZero ∧
    (LayerSetUp GetFiller L W bottom = .error Fault.indexOutOfRange → bottom = []) := by
  obtain ⟨kernel, hk'⟩ := resolvePair_ok (Resolvable_of_GroupGiven hk)
  obtain ⟨stride, hs'⟩ := resolvePair_ok (Resolvable_of_GroupGiven hs)
  obtain ⟨pad, hp'⟩ := resolvePair_ok (Resolvable_of_GroupGiven hp)
  obtain ⟨dilation, hd'⟩ := resolveDilation_ok L.conv_param.dilation
  have hret : bottom ≠ [] → ∃ L' W', LayerSetUp GetFiller L W bottom = .ok (L', W') := by
    intro hb
    obtain ⟨b0, hb0⟩ := exists_head_of_ne_nil hb
    exact ⟨_, _, LayerSetUp_of_resolved GetFiller L W bottom hk' hs' hp' hd' hb0⟩
  refine ⟨⟨kernel, stride, pad, dilation, hk', hs', hp', hd'⟩, hret, ?_, ?_⟩
  · intro herr
    by_cases hb : bottom = []
    · subst hb
      unfold LayerSetUp at herr
      dsimp only at herr
      rw [hk', hs', hp', hd'] at herr
      cases herr
    · obtain ⟨L', W', hok⟩ := hret hb
      rw [hok] at herr
      cases herr
  · intro herr
    by_contra hb
    obtain ⟨L', W', hok⟩ := hret hb
    rw [hok] at herr
    cases herr

/-- C15, at the configuration with an explicit kernel pair, a stride list of length 1, a pad
list of length 2 and a dilation list of length 1. -/
theorem LayerSetUp_resolution_stays_in_range_witness :
    (∃ kernel stride pad dilation,
      resolvePair (some 5) (some 3) [7] = .ok kernel ∧
      resolvePair none none [2] = .ok stride ∧
      resolvePair none none [1, 0] = .ok pad ∧
      resolveDilation [2] = .ok dilation) ∧
    (([onesInput] : List (Blob ℤ)) ≠ [] →
      ∃ L' W', LayerSetUp onesFiller (Layer.fresh mixedParam) ⟨0, []⟩ [onesInput]
        = .ok (L', W')) :=
  have h := LayerSetUp_resolution_stays_in_range onesFiller (Layer.fresh mixedParam) ⟨0, []⟩
    [onesInput] (by decide) (by decide) (by decide) (by decide)
  ⟨h.1, h.2.1⟩

theorem resolvePair_dropLonePair (xh xw : Option Int) (list : List Int) :
    resolvePair (dropLonePair xh xw).1 (dropLonePair xh xw).2 list = resolvePair xh xw list := by
  cases xh <;> cases xw <;> rfl

theorem resolvePair_of_lone {xh xw : Option Int} (hx : ¬ (xh.isSome ∧ xw.isSome))
    (list : List Int) : resolvePair xh xw list = resolvePair none none list := by
  cases xh <;> cases xw <;> simp_all [resolvePair]

theorem dropLonePair_of_lone {xh xw : Option Int} (hx : ¬ (xh.isSome ∧ xw.isSome)) :
    dropLonePair xh xw = (none, none) := by
  cases xh <;> cases xw <;> simp_all [dropLonePair]

/-- C16: in the resolution of kernel, stride and pad an explicit value given for one axis only
is ignored.  A group without both explicit fields resolves exactly as the same list with no
explicit field at all, and `LayerSetUp` on the configuration with every such lone value dropped
behaves as on the original one: it returns for the same inputs, and then with the same layer
(up to the stored configuration itself) and the same filler state; it returns whenever the three
lists and `bottom` are not empty. -/
theorem LayerSetUp_ignores_lone_explicit [Zero R] (GetFiller : FillerParameter → Filler R)
    (L : Layer R) (W : FillerWorld) (bottom : List (Blob R)) :
    (∀ (xh xw : Option Int) (list : List Int), ¬ (xh.isSome ∧ xw.isSome) →
      resolvePair xh xw list = resolvePair none none list ∧
      dropLonePair xh xw = (none, none)) ∧
    LayerSetUp GetFiller { L with conv_param := dropLoneExplicit L.conv_param } W bottom
      = (LayerSetUp GetFiller L W bottom).map
          (fun r => ({ r.1 with conv_param := dropLoneExplicit L.conv_param }, r.2)) ∧
    (L.conv_param.kernel_size ≠ [] → L.conv_param.stride ≠ [] → L.conv_param.pad ≠ [] →
      bottom ≠ [] → ∃ L' W', LayerSetUp GetFiller L W bottom = .ok (L', W')) := by
  refine ⟨fun xh xw list hx => ⟨resolvePair_of_lone hx list, dropLonePair_of_lone hx⟩, ?_, ?_⟩
  · unfold LayerSetUp
    dsimp only [dropLoneExplicit]
    rw [resolvePair_dropLonePair, resolvePair_dropLonePair, resolvePair_dropLonePair]
    cases resolvePair L.conv_param.kernel_h L.conv_param.kernel_w L.conv_param.kernel_size with
    | error e => rfl
    | ok kernel =>
      cases resolvePair L.conv_param.stride_h L.conv_param.stride_w L.conv_param.stride with
      | error e => rfl
      | ok stride =>
        cases resolvePair L.conv_param.pad_h L.conv_param.pad_w L.conv_param.pad with
        | error e => rfl
        | ok pad =>
          cases resolveDilation L.conv_param.dilation with
          | error e => rfl
          | ok dilation =>
            cases elemAt bottom 0 with
            | error e => rfl
            | ok b0 => rfl
  · intro hk hs hp hb
    obtain ⟨kernel, hk'⟩ := resolvePair_ok (Or.inr hk)
    obtain ⟨stride, hs'⟩ := resolvePair_ok (Or.inr hs)
    obtain ⟨pad, hp'⟩ := resolvePair_ok (Or.inr hp)
    obtain ⟨dilation, hd'⟩ := resolveDilation_ok L.conv_param.dilation
    obtain ⟨b0, hb0⟩ := exists_head_of_ne_nil hb
    exact ⟨_, _, LayerSetUp_of_resolved GetFiller L W bottom hk' hs' hp' hd' hb0⟩

/-- C16, at a configuration with `kernel_h` = 9 alone next to the kernel list [3] and
`stride_w` = 7 alone next to the stride list [2]: the lone values leave no trace, the kernel
resolves to 3x3 and the stride to 2x2. -/
theorem LayerSetUp_ignores_lone_explicit_witness :
    (resolvePair (some 9) none [3] = resolvePair none none [3] ∧
      dropLonePair (some 9) none = (none, none)) ∧
    (∃ L' W', LayerSetUp onesFiller (Layer.fresh loneParam) ⟨0, []⟩ [onesInput] = .ok (L', W')) ∧
    (LayerSetUp onesFiller (Layer.fresh loneParam) ⟨0, []⟩ [onesInput]).toOption.map
        (fun r => (r.1.kernel_h_, r.1.kernel_w_, r.1.stride_h_, r.1.stride_w_))
      = some (3, 3, 2, 2) :=
  have h := LayerSetUp_ignores_lone_explicit onesFiller (Layer.fresh loneParam) ⟨0, []⟩
    [onesInput]
  ⟨h.1 (some 9) none [3] (by decide),
    h.2.2 (by decide) (by decide) (by decide) (by simp), by rfl⟩

/-! ## Further claims on `Reshape` -/

theorem setOnes_shape [Zero R] [One R] (b : Blob R) : (setOnes b).shape_ = b.shape_ := rfl

/-- The buffers `Reshape` leaves, spelled out. -/
theorem Reshape_buffers [Zero R] [One R] (L : Layer R) (bottom top : List (Blob R))
    {b0 t0 : Blob R} (hb : bottom[0]? = some b0) (ht : top[0]? = some t0)
    (hsh : L.stride_h_ ≠ 0) (hsw : L.stride_w_ ≠ 0) :
    ∃ L' t0', Reshape L bottom top = .ok (L', top.set 0 t0') ∧
      t0' = t0.Reshape
        [b0.num, b0.channels,
         (b0.height + 2 * L.pad_h_ - (L.dilation_h_ * (L.kernel_h_ - 1) + 1)).tdiv L.stride_h_ + 1,
         (b0.width + 2 * L.pad_w_ - (L.dilation_w_ * (L.kernel_w_ - 1) + 1)).tdiv L.stride_w_ + 1] ∧
      L'.weight_buffer_ = L.weight_buffer_.Reshape
        [b0.channels, L.kernel_h_, L.kernel_w_, b0.num, t0'.height, t0'.width] ∧
      L'.weight_multiplier_
        = setOnes (L.weight_multiplier_.Reshape [b0.num, t0'.height, t0'.width]) ∧
      (L.conv_param.bias_term = true →
        L'.bias_buffer_
          = L.bias_buffer_.Reshape [b0.channels, b0.num, t0'.height, t0'.width] ∧
        L'.bias_multiplier_
          = setOnes (L.bias_multiplier_.Reshape [b0.num, t0'.height, t0'.width])) ∧
      (L.conv_param.bias_term = false →
        L'.bias_buffer_ = L.bias_buffer_ ∧ L'.bias_multiplier_ = L.bias_multiplier_) := by
  unfold Reshape
  rw [elemAt_eq_ok hb, elemAt_eq_ok ht]
  by_cases hbias : L.conv_param.bias_term = true
  · simp only [bind, Except.bind, hsh, hsw, hbias, if_false, if_true, pure, Except.pure]
    refine ⟨_, _, rfl, rfl, rfl, rfl, ?_, ?_⟩ <;> intro h <;>
      first | exact ⟨rfl, rfl⟩ | cases h
  · have hbias' : L.conv_param.bias_term = false := by simpa using hbias
    simp only [bind, Except.bind, hsh, hsw, hbias', if_false, Bool.false_eq_true, pure,
      Except.pure]
    refine ⟨_, _, rfl, rfl, rfl, rfl, ?_, ?_⟩ <;> intro h <;>
      first | exact ⟨rfl, rfl⟩ | exact h.elim

/-- C12: for an input of shape (N, C, H, W), `Reshape` gives `weight_buffer_` the shape
(C, kernel_h, kernel_w, N, out_H, out_W) and `weight_multiplier_` the shape (N, out_H, out_W),
with out_H and out_W the height and width of the output tensor; with bias enabled it gives
`bias_buffer_` the shape (C, N, out_H, out_W) and `bias_multiplier_` the shape
(N, out_H, out_W), with bias disabled it leaves both bias buffers as they were.  Hence the
element count of `weight_buffer_` is kernel_h * kernel_w times that of the output tensor. -/
theorem Reshape_sizes_buffers [Zero R] [One R] (L : Layer R) (bottom top : List (Blob R))
    (b0 : Blob R) (N C H W : ℤ)
    (hb : bottom[0]? = some b0) (hshape : b0.shape_ = [N, C, H, W]) (ht : top ≠ [])
    (hsh : L.stride_h_ ≠ 0) (hsw : L.stride_w_ ≠ 0) :
    ∃ L' top' t0', Reshape L bottom top = .ok (L', top') ∧ top'[0]? = some t0' ∧
      L'.weight_buffer_.shape_ = [C, L.kernel_h_, L.kernel_w_, N, t0'.height, t0'.width] ∧
      L'.weight_multiplier_.shape_ = [N, t0'.height, t0'.width] ∧
      (L.conv_param.bias_term = true →
        L'.bias_buffer_.shape_ = [C, N, t0'.height, t0'.width] ∧
        L'.bias_multiplier_.shape_ = [N, t0'.height, t0'.width]) ∧
      (L.conv_param.bias_term = false →
        L'.bias_buffer_ = L.bias_buffer_ ∧ L'.bias_multiplier_ = L.bias_multiplier_) ∧
      L'.weight_buffer_.count = L.kernel_h_ * L.kernel_w_ * t0'.count := by
  obtain ⟨t0, ht0⟩ := exists_head_of_ne_nil ht
  obtain ⟨L', t0', hrun, ht0', hwb, hwm, hbias, hnobias⟩ :=
    Reshape_buffers L bottom top hb ht0 hsh hsw
  have hnum : b0.num = N := by simp [Blob.num, Blob.LegacyShape, hshape]
  have hch : b0.channels = C := by simp [Blob.channels, Blob.LegacyShape, hshape]
  have hts : t0'.shape_ = [N, C, t0'.height, t0'.width] := by
    rw [ht0']
    simp [Blob.shape_Reshape, Blob.height, Blob.width, Blob.LegacyShape, hnum, hch]
  refine ⟨L', _, t0', hrun, getElem?_set_zero_of_some ht0, ?_, ?_, ?_, hnobias, ?_⟩
  · rw [hwb, Blob.shape_Reshape, hnum, hch]
  · rw [hwm, setOnes_shape, Blob.shape_Reshape, hnum]
  · intro h
    obtain ⟨h1, h2⟩ := hbias h
    rw [h1, h2, setOnes_shape, Blob.shape_Reshape, Blob.shape_Reshape, hnum, hch]
    exact ⟨rfl, rfl⟩
  · have hc1 : L'.weight_buffer_.count
        = C * (L.kernel_h_ * (L.kernel_w_ * (N * (t0'.height * t0'.width)))) := by
      simp [Blob.count, hwb, Blob.shape_Reshape, hnum, hch]
    have hc2 : t0'.count = N * (C * (t0'.height * t0'.width)) := by
      unfold Blob.count
      rw [hts]
      simp
    rw [hc1, hc2]
    ring

/-- C12, at the 3x3 box layer with bias on the 1x1x4x4 input: `weight_buffer_` gets the shape
(1, 3, 3, 1, 4, 4) with 144 = 3 * 3 * 16 elements. -/
theorem Reshape_sizes_buffers_witness :
    (∃ L' top' t0', Reshape { boxLayer with conv_param := boxParam true } [onesInput] [emptyBlob]
        = .ok (L', top') ∧ top'[0]? = some t0' ∧
      L'.weight_buffer_.shape_ = [1, 3, 3, 1, t0'.height, t0'.width] ∧
      L'.weight_multiplier_.shape_ = [1, t0'.height, t0'.width] ∧
      ((boxParam true).bias_term = true →
        L'.bias_buffer_.shape_ = [1, 1, t0'.height, t0'.width] ∧
        L'.bias_multiplier_.shape_ = [1, t0'.height, t0'.width]) ∧
      ((boxParam true).bias_term = false →
        L'.bias_buffer_ = boxLayer.bias_buffer_ ∧
        L'.bias_multiplier_ = boxLayer.bias_multiplier_) ∧
      L'.weight_buffer_.count = 3 * 3 * t0'.count) ∧
    (Reshape { boxLayer with conv_param := boxParam true } [onesInput] [emptyBlob]).toOption.map
        (fun r => (r.1.weight_buffer_.shape_, r.1.weight_buffer_.count,
          r.2.map fun t => (t.shape_, t.count)))
      = some ([1, 3, 3, 1, 4, 4], 144, [([1, 1, 4, 4], 16)]) :=
  ⟨Reshape_sizes_buffers { boxLayer with conv_param := boxParam true } [onesInput] [emptyBlob]
    onesInput 1 1 4 4 rfl rfl (by simp) (by decide) (by decide), by rfl⟩

/-! ## Further claims on `Backward_cpu` -/

theorem rd_replicate_zero [Zero R] (len k : Nat) : rd (List.replicate len (0 : R)) k = 0 :=
  rd_eq_zero_of_forall_mem (fun _ hx => (List.mem_replicate.mp hx).2) k

/-- The contribution of one sample is what `weight_cpu_gemm` leaves in a zero buffer. -/
theorem rd_weight_cpu_gemm_zero [CommRing R] (L : Layer R) (input : List R) (in_off : Nat)
    (top_diff : List R) (td_off len k : Nat) :
    rd (weight_cpu_gemm L input in_off top_diff td_off (List.replicate len 0)) k
      = weightDelta L input in_off top_diff td_off len k := by
  rw [rd_weight_cpu_gemm, rd_replicate_zero, zero_add, List.length_replicate]

/-- C13: with the weight's gradient flag set, `Backward_cpu` returns and the weight gradient it
leaves is, cell by cell, its content before the call plus the sum over every tensor pair i and
every sample n of the per-sample contribution, the one `weight_cpu_gemm` computes from input
slice (i, n) and output-gradient slice (i, n) into a zero buffer; all pairs add into the one
gradient buffer of `blobs_[0]`, whose length and whose weight data do not change. -/
theorem Backward_cpu_accumulates_weight_gradient [CommRing R] (L : Layer R)
    (top : List (Blob R)) (propagate_down : List Bool) (bottom : List (Blob R)) (w : Blob R)
    (hw : L.blobs_[0]? = some w) (hflag : L.param_propagate_down_[0]? = some true)
    (hbias : L.bias_term_ = true → ∃ p1, L.param_propagate_down_[1]? = some p1 ∧
      (p1 = true → 1 < L.blobs_.length))
    (hlenb : top.length ≤ bottom.length) (hlenp : top.length ≤ propagate_down.length) :
    ∃ L' bottom' w', Backward_cpu L top propagate_down bottom = .ok (L', bottom') ∧
      L'.blobs_[0]? = some w' ∧ w'.data_ = w.data_ ∧ w'.diff_.length = w.diff_.length ∧
      ∀ k, rd w'.diff_ k = rd w.diff_ k +
        ∑ i in Finset.range top.length, ∑ n in Finset.range L.num_,
          rd (weight_cpu_gemm L (dataOf bottom i) (n * L.bottom_dim_) (diffOf top i)
            (n * L.top_dim_) (List.replicate w.diff_.length 0)) k := by
  obtain ⟨blobs', bot', hrun, -, -, -, w', hw', hwd, -, hwl, hrd⟩ :=
    Backward_cpu_ok L top propagate_down bottom hw hflag hbias hlenb hlenp
  refine ⟨_, bot', w', hrun, hw', hwd, hwl, ?_⟩
  intro k
  rw [hrd k]
  simp only [if_true, weightGrad, rd_weight_cpu_gemm_zero]

/-- C13, at the box layer whose weight gradient already holds 10, ..., 90, on two identical
pairs: each cell ends as its old content plus twice the contribution of one pair. -/
theorem Backward_cpu_accumulates_weight_gradient_witness :
    (∃ L' bottom' w', Backward_cpu primedLayer [gradOutput, gradOutput] [false, false]
        [onesInput, onesInput] = .ok (L', bottom') ∧
      L'.blobs_[0]? = some w' ∧ w'.data_ = primedKernel.data_ ∧
      w'.diff_.length = primedKernel.diff_.length ∧
      ∀ k, rd w'.diff_ k = rd primedKernel.diff_ k +
        ∑ i in Finset.range [gradOutput, gradOutput].length,
          ∑ n in Finset.range primedLayer.num_,
            rd (weight_cpu_gemm primedLayer (dataOf [onesInput, onesInput] i)
              (n * primedLayer.bottom_dim_) (diffOf [gradOutput, gradOutput] i)
              (n * primedLayer.top_dim_) (List.replicate primedKernel.diff_.length 0)) k) ∧
    (Backward_cpu primedLayer [gradOutput, gradOutput] [false, false]
        [onesInput, onesInput]).toOption.map (fun r => r.1.blobs_.map Blob.diff_)
      = some [[208, 272, 210, 256, 322, 252, 196, 236, 198]] ∧
    weight_cpu_gemm primedLayer onesInput.data_ 0 gradOutput.diff_ 0 (List.replicate 9 0)
      = [99, 126, 90, 108, 136, 96, 63, 78, 54] :=
  ⟨Backward_cpu_accumulates_weight_gradient primedLayer [gradOutput, gradOutput] [false, false]
    [onesInput, onesInput] primedKernel rfl rfl (by decide) (by decide) (by decide),
    by rfl, by rfl⟩

/-! ## Further claims on the output dimension -/

theorem tdiv_add_one_fitsWindow (input_dim pad dilation kernel stride : ℤ) (hs : 1 ≤ stride)
    (hfit : dilation * (kernel - 1) + 1 ≤ input_dim + 2 * pad) :
    FitsWindow ((input_dim + 2 * pad - (dilation * (kernel - 1) + 1)).tdiv stride + 1)
      input_dim pad dilation kernel stride := by
  have hs0 : 0 < stride := by omega
  have hnum : 0 ≤ input_dim + 2 * pad - (dilation * (kernel - 1) + 1) := by omega
  rw [Int.tdiv_eq_ediv hnum hs0.le]
  have h1 := Int.ediv_nonneg hnum hs0.le
  have h2 := Int.ediv_mul_le (input_dim + 2 * pad - (dilation * (kernel - 1) + 1)) hs0.ne'
  have h3 := Int.lt_ediv_add_one_mul_self
    (input_dim + 2 * pad - (dilation * (kernel - 1) + 1)) hs0
  refine ⟨by omega, ?_, ?_⟩
  · have : (input_dim + 2 * pad - (dilation * (kernel - 1) + 1)) / stride + 1 - 1
        = (input_dim + 2 * pad - (dilation * (kernel - 1) + 1)) / stride := by ring
    rw [this]
    omega
  · omega

theorem FitsWindow.largest {out input_dim pad dilation kernel stride : ℤ}
    (h : FitsWindow out input_dim pad dilation kernel stride) (hs : 1 ≤ stride) (m : ℤ)
    (hm : (m - 1) * stride + (dilation * (kernel - 1) + 1) ≤ input_dim + 2 * pad) :
    m ≤ out := by
  obtain ⟨-, -, h3⟩ := h
  by_contra hcon
  have h1 : out ≤ m - 1 := by omega
  have h2 : out * stride ≤ (m - 1) * stride := Int.mul_le_mul_of_nonneg_right h1 (by omega)
  omega

/-- C14: for kernel >= 1, stride >= 1, dilation >= 1, pad >= 0 and input_dim >= 1 with
extent = dilation*(kernel-1)+1 <= input_dim + 2*pad on both axes, the height and width `out`
that `Reshape` gives the output tensor satisfy out >= 1 and
(out-1)*stride + extent <= input_dim + 2*pad < out*stride + extent, and no larger count m has
(m-1)*stride + extent <= input_dim + 2*pad; the same holds for the value
`compute_output_shape` appends for each axis. -/
theorem output_dim_fits_window [Zero R] [One R] (L : Layer R)
    (bottom top : List (Blob R)) (b0 t0 : Blob R) (N C H W : ℤ)
    (hb : bottom[0]? = some b0) (hshape : b0.shape_ = [N, C, H, W]) (ht : top[0]? = some t0)
    (hH : InDomain H L.pad_h_ L.dilation_h_ L.kernel_h_ L.stride_h_)
    (hW : InDomain W L.pad_w_ L.dilation_w_ L.kernel_w_ L.stride_w_)
    (hfitH : L.dilation_h_ * (L.kernel_h_ - 1) + 1 ≤ H + 2 * L.pad_h_)
    (hfitW : L.dilation_w_ * (L.kernel_w_ - 1) + 1 ≤ W + 2 * L.pad_w_)
    (hlen : L.num_spatial_axes_.toNat + 1 ≤ L.input_shape.length ∧
      L.num_spatial_axes_.toNat ≤ L.kernel_shape_.length ∧
      L.num_spatial_axes_.toNat ≤ L.stride_.length ∧
      L.num_spatial_axes_.toNat ≤ L.pad_.length ∧
      L.num_spatial_axes_.toNat ≤ L.dilation_.length)
    (hax : ∀ i, i < L.num_spatial_axes_.toNat →
      InDomain (L.input_shape.getD (i + 1) 0) (L.pad_.getD i 0) (L.dilation_.getD i 0)
        (L.kernel_shape_.getD i 0) (L.stride_.getD i 0) ∧
      L.dilation_.getD i 0 * (L.kernel_shape_.getD i 0 - 1) + 1
        ≤ L.input_shape.getD (i + 1) 0 + 2 * L.pad_.getD i 0) :
    (∃ L' top' t0', Reshape L bottom top = .ok (L', top') ∧ top'[0]? = some t0' ∧
      FitsWindow t0'.height H L.pad_h_ L.dilation_h_ L.kernel_h_ L.stride_h_ ∧
      FitsWindow t0'.width W L.pad_w_ L.dilation_w_ L.kernel_w_ L.stride_w_ ∧
      (∀ m : ℤ, (m - 1) * L.stride_h_ + (L.dilation_h_ * (L.kernel_h_ - 1) + 1)
        ≤ H + 2 * L.pad_h_ → m ≤ t0'.height) ∧
      (∀ m : ℤ, (m - 1) * L.stride_w_ + (L.dilation_w_ * (L.kernel_w_ - 1) + 1)
        ≤ W + 2 * L.pad_w_ → m ≤ t0'.width)) ∧
    (∃ L', compute_output_shape L = .ok L' ∧
      L'.output_shape_.length = L.num_spatial_axes_.toNat ∧
      ∀ i, i < L.num_spatial_axes_.toNat → ∃ out, L'.output_shape_[i]? = some out ∧
        FitsWindow out (L.input_shape.getD (i + 1) 0) (L.pad_.getD i 0)
          (L.dilation_.getD i 0) (L.kernel_shape_.getD i 0) (L.stride_.getD i 0)) := by
  constructor
  · obtain ⟨L', hL'⟩ := Reshape_ok L bottom top hb ht
      (by have := hH.2.1; omega) (by have := hW.2.1; omega)
    have hh : (t0.Reshape [b0.num, b0.channels,
        (b0.height + 2 * L.pad_h_ - (L.dilation_h_ * (L.kernel_h_ - 1) + 1)).tdiv L.stride_h_ + 1,
        (b0.width + 2 * L.pad_w_ - (L.dilation_w_ * (L.kernel_w_ - 1) + 1)).tdiv L.stride_w_
          + 1]).height
        = (H + 2 * L.pad_h_ - (L.dilation_h_ * (L.kernel_h_ - 1) + 1)).tdiv L.stride_h_ + 1 := by
      simp [Blob.height, Blob.LegacyShape, Blob.shape_Reshape, hshape]
    have hw : (t0.Reshape [b0.num, b0.channels,
        (b0.height + 2 * L.pad_h_ - (L.dilation_h_ * (L.kernel_h_ - 1) + 1)).tdiv L.stride_h_ + 1,
        (b0.width + 2 * L.pad_w_ - (L.dilation_w_ * (L.kernel_w_ - 1) + 1)).tdiv L.stride_w_
          + 1]).width
        = (W + 2 * L.pad_w_ - (L.dilation_w_ * (L.kernel_w_ - 1) + 1)).tdiv L.stride_w_ + 1 := by
      simp [Blob.width, Blob.LegacyShape, Blob.shape_Reshape, hshape]
    have fH := tdiv_add_one_fitsWindow H L.pad_h_ L.dilation_h_ L.kernel_h_ L.stride_h_
      hH.2.1 hfitH
    have fW := tdiv_add_one_fitsWindow W L.pad_w_ L.dilation_w_ L.kernel_w_ L.stride_w_
      hW.2.1 hfitW
    refine ⟨L', _, _, hL', getElem?_set_zero_of_some ht, ?_, ?_, ?_, ?_⟩
    · rw [hh]; exact fH
    · rw [hw]; exact fW
    · intro m hm
      rw [hh]
      exact fH.largest hH.2.1 m hm
    · intro m hm
      rw [hw]
      exact fW.largest hW.2.1 m hm
  · obtain ⟨h1, h2, h3, h4, h5⟩ := hlen
    obtain ⟨L', hcos, hout⟩ := compute_output_shape_ok L h1 h2 h3 h4 h5
      (fun i hi => by have := (hax i hi).1.2.1; omega)
    refine ⟨L', hcos, by simp [hout], ?_⟩
    intro i hi
    refine ⟨_, ?_, tdiv_add_one_fitsWindow _ _ _ _ _ (hax i hi).1.2.1 (hax i hi).2⟩
    rw [hout, List.getElem?_map, List.getElem?_range hi]
    rfl

/-- C14, at kernel 3, stride 2, pad 1, dilation 2 (extent 5) on a 1x1x8x8 input: padded size
10, output 3, and (3-1)*2 + 5 = 9 <= 10 < 11 = 3*2 + 5. -/
theorem output_dim_fits_window_witness :
    (∃ L' top' t0', Reshape stridedLayer [wideInput] [emptyBlob] = .ok (L', top') ∧
      top'[0]? = some t0' ∧
      FitsWindow t0'.height 8 1 2 3 2 ∧ FitsWindow t0'.width 8 1 2 3 2 ∧
      (∀ m : ℤ, (m - 1) * 2 + (2 * (3 - 1) + 1) ≤ 8 + 2 * 1 → m ≤ t0'.height) ∧
      (∀ m : ℤ, (m - 1) * 2 + (2 * (3 - 1) + 1) ≤ 8 + 2 * 1 → m ≤ t0'.width)) ∧
    (Reshape stridedLayer [wideInput] [emptyBlob]).toOption.map
        (fun r => r.2.map Blob.shape_) = some [[1, 1, 3, 3]] ∧
    FitsWindow 3 8 1 2 3 2 :=
  have h := output_dim_fits_window stridedLayer [wideInput] [emptyBlob] wideInput emptyBlob
    1 1 8 8 rfl rfl rfl (by decide) (by decide) (by decide) (by decide) (by decide)
    (by
      intro i hi
      have hi' : i < 2 := hi
      interval_cases i <;> decide)
  ⟨h.1, by rfl, by decide⟩

end Caffe
